import Mathlib

/-!
Verification of the g0t-phish agentic email-analysis core against its
natural-language specification.

The development shallowly embeds the v1.1 agent analyzer (the orchestration
loop `analyzeWithTools`, its tool dispatcher `executeTool`, the local tools
`extractUrls` / `checkAuthentication` / `analyzeSender`, the reputation tools
`checkUrlReputation` / `checkIpReputation`, the result assembler
`parseFinalResponse`, the conservative placeholder `buildConservativeAnalysis`,
and the degradation policy of the outer catch block) together with the v1.0
single-shot analyzer `analyzeEmail` used as fallback.

Modelling conventions:
- JavaScript runtime values that flow through `JSON.parse`, tool inputs and
  object spreads are modelled by the inductive type `Json`.  JSON numbers are
  modelled as integers (`Int`); non-integral numerals are outside the modelled
  subset (no claim depends on them).
- `Date.now()` is modelled by a natural-number clock measured in milliseconds
  from invocation start; each model call and each tool execution advances it by
  an amount supplied by the test script (`ModelEvent` durations, `toolDurs`).
- The model service is an oracle: a list of `ModelEvent`s, one consumed per
  `messages.create` call.  An exhausted list behaves as the 7s per-call race
  timing out (in the source the race guarantees every call resolves or rejects).
- The URL regex, the WHATWG URL parser, the display-name e-mail regex, the
  process environment and the two reputation providers are abstracted as the
  `Oracles` record; theorems quantify over all oracles.
- Thrown JavaScript exceptions are modelled by `Except String`; a caught
  exception is a matched `.error`.
-/

/-! ## JavaScript value model -/

/-- Runtime JSON/JS value.  Numbers are modelled as integers (see header). -/
inductive Json where
  | null : Json
  | bool : Bool → Json
  | num : Int → Json
  | str : String → Json
  | arr : List Json → Json
  | obj : List (String × Json) → Json
deriving Repr, Inhabited

/-- List-of-characters view of a string (kernel-reduction friendly). -/
def strChars (s : String) : List Char := s.data

/-- Rebuild a string from characters. -/
def charsStr (cs : List Char) : String := String.mk cs

/-- Lowercase a string character-wise (models `String.prototype.toLowerCase`
on the ASCII range, the only range exercised here). -/
def lowerStr (s : String) : String := charsStr ((strChars s).map Char.toLower)

/-- Whether `pat` is a prefix of `cs`. -/
def isPrefixL : List Char → List Char → Bool
  | [], _ => true
  | p :: ps, q :: qs => if p == q then isPrefixL ps qs else false
  | _ :: _, [] => false

/-- Whether `pat` occurs as a contiguous sublist of `cs`. -/
def containsSubL (pat : List Char) : List Char → Bool
  | [] => isPrefixL pat []
  | c :: cs => isPrefixL pat (c :: cs) || containsSubL pat cs

/-- Models `s.includes(pat)` for JavaScript strings. -/
def containsSub (pat s : String) : Bool := containsSubL (strChars pat) (strChars s)

/-- JS whitespace test restricted to the ASCII whitespace used here
(space, tab, line feed, carriage return, by code point). -/
def isWsChar (c : Char) : Bool :=
  let n := c.toNat
  n == 32 || n == 9 || n == 10 || n == 13

/-- Models `String.prototype.trim` on the ASCII range. -/
def trimStr (s : String) : String :=
  charsStr ((((strChars s).dropWhile isWsChar).reverse.dropWhile isWsChar).reverse)

/-- Split a character list on a separator character (models `split(sep)` for a
single-character separator). -/
def splitOnCharL (sep : Char) : List Char → List (List Char)
  | [] => [[]]
  | c :: cs =>
    let rest := splitOnCharL sep cs
    if c == sep then [] :: rest
    else match rest with
      | [] => [[c]]
      | r :: rs => (c :: r) :: rs

/-- Models `s.split(sep)` returning strings. -/
def splitOnChar (sep : Char) (s : String) : List String :=
  (splitOnCharL sep (strChars s)).map charsStr

/-- Truthiness of a modelled JS value. -/
def jsTruthy : Json → Bool
  | .null => false
  | .bool b => b
  | .num n => n != 0
  | .str s => s ≠ ""
  | .arr _ => true
  | .obj _ => true

/-- Models `String(v)` coercion for the values exercised in this development
(objects and arrays are collapsed to their JS display forms approximately;
no claim exercises those branches). -/
def jsToString : Json → String
  | .null => "null"
  | .bool b => if b then "true" else "false"
  | .num n => toString n
  | .str s => s
  | .arr _ => ""
  | .obj _ => "[object Object]"

/-- Coercion of a possibly-absent (`undefined`) value, as template literals
and `String(...)` perform. -/
def jsToStringU : Option Json → String
  | some v => jsToString v
  | none => "undefined"

/-- Property access `o[k]` on a modelled value: objects look the key up
(first binding; source objects have unique keys), every other non-nullish
value yields `undefined`.  (Access on `null`/`undefined` would throw in JS;
the embedded code never property-accesses a nullish value.) -/
def jProp (v : Json) (k : String) : Option Json :=
  match v with
  | .obj fs => fs.lookup k
  | _ => none

/-- Models `v.toLowerCase()`-style string method access: succeeds on strings,
throws a `TypeError` (here: `.error`) on anything else. -/
def asStringM (v : Json) : Except String String :=
  match v with
  | .str s => .ok s
  | _ => .error "TypeError: not a string"

/-- Models the JS `a || b` default pattern on a possibly-absent value. -/
def jsOrDefault (v : Option Json) (d : Json) : Json :=
  match v with
  | some x => if jsTruthy x then x else d
  | none => d

/-- First-binding lookup in a field list (JS property read on an object with
unique keys). -/
def fieldLookup (fs : List (String × Json)) (k : String) : Option Json :=
  fs.lookup k

/-! ## JSON parser (models `JSON.parse` on the integer-numeral subset) -/

/-- Hexadecimal digit value (code-point arithmetic). -/
def hexVal (c : Char) : Option Nat :=
  let n := c.toNat
  if n ≥ 48 && n ≤ 57 then some (n - 48)
  else if n ≥ 97 && n ≤ 102 then some (n - 87)
  else if n ≥ 65 && n ≤ 70 then some (n - 55)
  else none

/-- Parse the body of a JSON string literal after the opening quote, with the
standard escapes (`\uXXXX` outside surrogate pairs). -/
def parseStrLit (fuel : Nat) (cs : List Char) : Option (List Char × List Char) :=
  match fuel, cs with
  | 0, _ => none
  | _, [] => none
  | _ + 1, '"' :: rest => some ([], rest)
  | fuel + 1, '\\' :: e :: rest =>
    match e with
    | '"' => (parseStrLit fuel rest).map (fun p => ('"' :: p.1, p.2))
    | '\\' => (parseStrLit fuel rest).map (fun p => ('\\' :: p.1, p.2))
    | '/' => (parseStrLit fuel rest).map (fun p => ('/' :: p.1, p.2))
    | 'n' => (parseStrLit fuel rest).map (fun p => ('\n' :: p.1, p.2))
    | 't' => (parseStrLit fuel rest).map (fun p => ('\t' :: p.1, p.2))
    | 'r' => (parseStrLit fuel rest).map (fun p => ('\r' :: p.1, p.2))
    | 'b' => (parseStrLit fuel rest).map (fun p => ('\x08' :: p.1, p.2))
    | 'f' => (parseStrLit fuel rest).map (fun p => ('\x0c' :: p.1, p.2))
    | 'u' =>
      match rest with
      | h1 :: h2 :: h3 :: h4 :: rest2 =>
        match hexVal h1, hexVal h2, hexVal h3, hexVal h4 with
        | some a, some b, some c, some d =>
          let n := ((a * 16 + b) * 16 + c) * 16 + d
          if h : n.isValidChar then
            (parseStrLit fuel rest2).map (fun p => (Char.ofNatAux n h :: p.1, p.2))
          else none
        | _, _, _, _ => none
      | _ => none
    | _ => none
  | fuel + 1, c :: rest =>
    if c.toNat < 32 then none
    else (parseStrLit fuel rest).map (fun p => (c :: p.1, p.2))

/-- Skip JSON whitespace. -/
def skipWs : List Char → List Char
  | c :: cs => if isWsChar c then skipWs cs else c :: cs
  | [] => []

/-- Decimal value of a digit run. -/
def digitsVal (ds : List Char) : Nat :=
  ds.foldl (fun acc c => 10 * acc + (c.toNat - 48)) 0

/-- Parse a JSON integer numeral (optional minus; no leading zeros; the
fractional/exponent forms are outside the modelled subset). -/
def parseNum (cs : List Char) : Option (Int × List Char) :=
  let neg : Bool := match cs with
    | '-' :: _ => true
    | _ => false
  let cs1 := if neg then cs.tail else cs
  let ds := cs1.takeWhile Char.isDigit
  let rest := cs1.dropWhile Char.isDigit
  if ds = [] then none
  else if ds.length > 1 && ds.headD '0' == '0' then none
  else match rest with
    | '.' :: _ => none
    | 'e' :: _ => none
    | 'E' :: _ => none
    | _ =>
      let v : Int := Int.ofNat (digitsVal ds)
      some (if neg then -v else v, rest)

mutual

/-- Parse one JSON value. -/
def parseVal (fuel : Nat) (cs : List Char) : Option (Json × List Char) :=
  match fuel with
  | fuel + 1 =>
    match skipWs cs with
    | [] => none
    | c :: rest =>
      if c == 'n' then
        if isPrefixL (strChars "ull") rest then some (.null, rest.drop 3) else none
      else if c == 't' then
        if isPrefixL (strChars "rue") rest then some (.bool true, rest.drop 3) else none
      else if c == 'f' then
        if isPrefixL (strChars "alse") rest then some (.bool false, rest.drop 4) else none
      else if c == '"' then
        (parseStrLit (rest.length + 1) rest).map (fun p => (.str (charsStr p.1), p.2))
      else if c == '[' then
        match skipWs rest with
        | ']' :: rest2 => some (.arr [], rest2)
        | _ => (parseElems fuel rest).map (fun p => (.arr p.1, p.2))
      else if c == '\x7b' then
        match skipWs rest with
        | '\x7d' :: rest2 => some (.obj [], rest2)
        | _ => (parseFields fuel rest).map (fun p => (.obj p.1, p.2))
      else
        parseNum (c :: rest) |>.map (fun p => (.num p.1, p.2))
  | 0 => none

/-- Parse array elements up to and including the closing bracket. -/
def parseElems (fuel : Nat) (cs : List Char) : Option (List Json × List Char) :=
  match fuel with
  | fuel + 1 =>
    match parseVal fuel cs with
    | none => none
    | some (v, rest) =>
      match skipWs rest with
      | ',' :: rest2 => (parseElems fuel rest2).map (fun p => (v :: p.1, p.2))
      | ']' :: rest2 => some ([v], rest2)
      | _ => none
  | 0 => none

/-- Parse object fields up to and including the closing brace. -/
def parseFields (fuel : Nat) (cs : List Char) : Option (List (String × Json) × List Char) :=
  match fuel with
  | fuel + 1 =>
    match skipWs cs with
    | '"' :: rest =>
      match parseStrLit (rest.length + 1) rest with
      | none => none
      | some (k, rest2) =>
        match skipWs rest2 with
        | ':' :: rest3 =>
          match parseVal fuel rest3 with
          | none => none
          | some (v, rest4) =>
            match skipWs rest4 with
            | ',' :: rest5 => (parseFields fuel rest5).map (fun p => ((charsStr k, v) :: p.1, p.2))
            | '\x7d' :: rest5 => some ([(charsStr k, v)], rest5)
            | _ => none
        | _ => none
    | _ => none
  | 0 => none

end

/-- Models `JSON.parse` (integer-numeral subset): the whole input, up to
surrounding whitespace, must be one JSON value. -/
def jsonParse (s : String) : Option Json :=
  let cs := strChars s
  match parseVal (cs.length + 1) cs with
  | none => none
  | some (v, rest) => if skipWs rest = [] then some v else none

/-! ## Tool result shape (`types/email.ts`, `ToolResult`) -/

/-- Result of one tool execution.  `none` fields model absent (`undefined`)
JS object properties. -/
structure ToolResult where
  success : Bool
  data : Option Json
  error : Option String
  cached : Option Bool
  source : Option String
deriving Repr

/-- Environment and regex/provider oracles abstracted from the runtime:
the URL regex and WHATWG URL parser of `extractUrls`, the display-name
e-mail regex of `analyzeSender`, the two credential environment variables,
and the two reputation providers (`ThreatIntelService`).  A provider answer
of `.error` models a thrown/rejected call, `.ok none` models the service
returning `null`. -/
structure UrlRep where
  url : String
  malicious : Bool
  maliciousCount : Nat
  totalScans : Nat
  detectedBy : List String
  confidenceScore : Int
deriving Repr

structure IpRep where
  ip : String
  malicious : Bool
  abuseConfidenceScore : Int
  totalReports : Nat
deriving Repr

structure Oracles where
  urlMatch : String → List String
  urlHost : String → Option String
  emailLike : String → Option String
  vtKey : Option String
  abuseKey : Option String
  urlProvider : String → Except String (Option UrlRep)
  ipProvider : String → Except String (Option IpRep)

/-- Falsiness of `process.env.X` under `!x`: unset or empty string. -/
def jsFalsyEnv : Option String → Bool
  | none => true
  | some s => s = ""

/-! ## Local tools (`lib/tools/local-tools.ts`) -/

/-- Allow-list of common safe registrable domains (`SAFE_DOMAINS`). -/
def SAFE_DOMAINS : List String :=
  ["google.com", "gmail.com", "microsoft.com", "outlook.com", "office.com",
   "apple.com", "icloud.com", "yahoo.com", "linkedin.com", "facebook.com",
   "twitter.com", "instagram.com", "youtube.com", "amazon.com", "github.com"]

/-- Models `s.indexOf(sub)`: first occurrence index or `-1`. -/
def jsIndexOfL (sub : List Char) : List Char → Int
  | [] => if sub = [] then 0 else -1
  | c :: cs =>
    if isPrefixL sub (c :: cs) then 0
    else
      let r := jsIndexOfL sub cs
      if r < 0 then -1 else r + 1

/-- Models `s.indexOf(sub)` on strings. -/
def jsIndexOf (s sub : String) : Int := jsIndexOfL (strChars sub) (strChars s)

/-- Models `s.substring(a, b)`: clamps both arguments to `[0, length]` and
swaps them when out of order. -/
def jsSubstring (s : String) (a b : Int) : String :=
  let n : Int := Int.ofNat (strChars s).length
  let a' := min (max a 0) n
  let b' := min (max b 0) n
  let lo := (min a' b').toNat
  let hi := (max a' b').toNat
  charsStr (((strChars s).drop lo).take (hi - lo))

/-- Deduplicate keeping first occurrences (`Set` insertion order),
with an accumulator of already-seen strings. -/
def dedupGo (seen : List String) : List String → List String
  | [] => []
  | x :: xs => if seen.contains x then dedupGo seen xs else x :: dedupGo (x :: seen) xs

/-- Deduplicate keeping first occurrences (`Set` insertion order). -/
def dedupKeepFirst (l : List String) : List String := dedupGo [] l

/-- Last two dot-labels of a domain joined back (`split('.').slice(-2).join('.')`). -/
def rootDomainOf (domain : String) : String :=
  let parts := splitOnChar '.' domain
  String.intercalate "." (parts.drop (parts.length - 2))

/-- Strip one leading `www.` from the hostname (the anchored replace). -/
def stripWww (host : String) : String :=
  if isPrefixL (strChars "www.") (strChars host) then charsStr ((strChars host).drop 4)
  else host

/-- Per-URL processing inside `extractUrls`: `new URL` (oracle; `none` models
the constructor throwing, in which case the URL is skipped), domain and
allow-list classification, and the ±50-character body context. -/
def processUrl (o : Oracles) (bodyStr url : String) : Option Json :=
  match o.urlHost url with
  | none => none
  | some host =>
    let domain := stripWww host
    let isSafe := SAFE_DOMAINS.contains (rootDomainOf domain)
    let urlIndex := jsIndexOf bodyStr url
    let contextStart := max 0 (urlIndex - 50)
    let contextEnd := min (Int.ofNat (strChars bodyStr).length)
      (urlIndex + Int.ofNat (strChars url).length + 50)
    let context := trimStr (jsSubstring bodyStr contextStart contextEnd)
    some (.obj [("url", .str url), ("context", .str context),
                ("domain", .str domain), ("is_safe_domain", .bool isSafe)])

/-- Whether a processed URL entry is flagged non-allow-listed. -/
def urlEntrySuspicious (j : Json) : Bool :=
  match jProp j "is_safe_domain" with
  | some (.bool b) => !b
  | _ => true

/-- Body of `extractUrls` inside its `try`; `.error` models a thrown
`TypeError` (`match` called on a non-string `email_body`/`email_html`). -/
def extractUrlsBody (o : Oracles) (emailBody : Json) (emailHtml : Option Json) :
    Except String Json := do
  let bodyStr ← asStringM emailBody
  let textMatches := o.urlMatch bodyStr
  let htmlMatches ←
    match emailHtml with
    | some h =>
      if jsTruthy h then do
        let hs ← asStringM h
        pure (o.urlMatch hs)
      else pure []
    | none => pure []
  let found := dedupKeepFirst (textMatches ++ htmlMatches)
  let urlDetails := found.filterMap (processUrl o bodyStr)
  let suspicious := urlDetails.filter urlEntrySuspicious
  pure (.obj [("urls", .arr urlDetails),
              ("total_found", .num (Int.ofNat urlDetails.length)),
              ("suspicious_count", .num (Int.ofNat suspicious.length))])

/-- The `catch` branch value of `extractUrls`: `success: false` with an empty
data payload and NO error string. -/
def extractUrlsFailure : ToolResult :=
  { success := false,
    data := some (.obj [("urls", .arr []), ("total_found", .num 0),
                        ("suspicious_count", .num 0)]),
    error := none, cached := none, source := none }

/-- Models `extractUrls` (lib/tools/local-tools.ts). -/
def extractUrls (o : Oracles) (emailBody : Json) (emailHtml : Option Json) : ToolResult :=
  match extractUrlsBody o emailBody emailHtml with
  | .ok d => { success := true, data := some d, error := none, cached := none, source := none }
  | .error _ => extractUrlsFailure

/-- Header chain `h[k1] || h[k2] || ...`: first truthy value. -/
def headerChain (h : Json) : List String → Option Json
  | [] => none
  | k :: ks =>
    match jProp h k with
    | some v => if jsTruthy v then some v else headerChain h ks
    | none => headerChain h ks

def spfKeys : List String := ["received-spf", "spf", "SPF", "Received-SPF"]

def dkimKeys : List String := ["dkim-signature", "DKIM-Signature", "dkim", "authentication-results"]

def dmarcKeys : List String := ["dmarc", "DMARC", "authentication-results"]

/-- SPF classification of a lowercased header value. -/
def classifySpfValue (l : String) : String :=
  if containsSub "pass" l then "pass"
  else if containsSub "fail" l && !containsSub "softfail" l then "fail"
  else if containsSub "softfail" l then "softfail"
  else if containsSub "neutral" l then "neutral"
  else "none"

/-- DKIM classification of a lowercased header value: only explicit
`dkim=pass/fail/neutral` tokens count (signature presence alone does not). -/
def classifyDkimValue (l : String) : String :=
  if containsSub "dkim=pass" l then "pass"
  else if containsSub "dkim=fail" l then "fail"
  else if containsSub "dkim=neutral" l then "neutral"
  else "none"

/-- DMARC classification of a lowercased header value. -/
def classifyDmarcValue (l : String) : String :=
  if containsSub "dmarc=pass" l then "pass"
  else if containsSub "dmarc=fail" l then "fail"
  else if containsSub "dmarc=neutral" l then "neutral"
  else "none"

/-- Classify one protocol given the selected header value (`.error` models the
`toLowerCase` TypeError on a truthy non-string value). -/
def classifyWith (f : String → String) : Option Json → Except String String
  | none => .ok "none"
  | some v => do
    let s ← asStringM v
    pure (f (lowerStr s))

/-- Structured result of `checkAuthentication`. -/
structure AuthData where
  spf : String
  dkim : String
  dmarc : String
  spfRaw : Option Json
  dkimRaw : Option Json
  dmarcRaw : Option Json
deriving Repr

/-- Body of `checkAuthentication` inside its `try`. -/
def checkAuthBody (h : Json) : Except String AuthData := do
  let spfH := headerChain h spfKeys
  let spf ← classifyWith classifySpfValue spfH
  let dkimH := headerChain h dkimKeys
  let dkim ← classifyWith classifyDkimValue dkimH
  let dmarcH := headerChain h dmarcKeys
  let dmarc ← classifyWith classifyDmarcValue dmarcH
  pure ⟨spf, dkim, dmarc, spfH, dkimH, dmarcH⟩

/-- JSON encoding of the authentication data payload. -/
def authDataJson (d : AuthData) : Json :=
  .obj [("spf", .str d.spf), ("dkim", .str d.dkim), ("dmarc", .str d.dmarc),
        ("details", .obj
          ((match d.spfRaw with | some v => [("spf_raw", v)] | none => []) ++
           (match d.dkimRaw with | some v => [("dkim_raw", v)] | none => []) ++
           (match d.dmarcRaw with | some v => [("dmarc_raw", v)] | none => [])))]

/-- The `catch` branch value of `checkAuthentication`: `success: false`,
all-none data, NO error string. -/
def checkAuthenticationFailure : ToolResult :=
  { success := false,
    data := some (.obj [("spf", .str "none"), ("dkim", .str "none"),
                        ("dmarc", .str "none"), ("details", .obj [])]),
    error := none, cached := none, source := none }

/-- Models `checkAuthentication` (lib/tools/local-tools.ts). -/
def checkAuthentication (h : Json) : ToolResult :=
  match checkAuthBody h with
  | .ok d => { success := true, data := some (authDataJson d), error := none,
               cached := none, source := none }
  | .error _ => checkAuthenticationFailure

/-- Headers mapping with string values, as a JS object. -/
def strHeaders (m : List (String × String)) : Json :=
  .obj (m.map (fun kv => (kv.1, .str kv.2)))

/-! ## analyzeSender (lib/tools/local-tools.ts) -/

/-- Scan for the closing `>` of `/<(.+?)>/` given the accumulated content in
reverse; content must be non-empty and newline-free. -/
def scanGt (acc : List Char) : List Char → Option (List Char)
  | [] => none
  | c :: cs =>
    if c == '>' then some acc.reverse
    else if c == '\n' then none
    else scanGt (c :: acc) cs

/-- Attempt the lazy `/<(.+?)>/` content match right after a `<`. -/
def angleAt : List Char → Option (List Char)
  | [] => none
  | c0 :: tail => if c0 == '\n' then none else scanGt [c0] tail

/-- Leftmost match of `/<(.+?)>/`, returning the captured group. -/
def extractAngleL : List Char → Option (List Char)
  | [] => none
  | c :: rest =>
    if c == '<' then
      match angleAt rest with
      | some content => some content
      | none => extractAngleL rest
    else extractAngleL rest

/-- Captured group of `s.match(/<(.+?)>/)`. -/
def extractAngle (s : String) : Option String :=
  (extractAngleL (strChars s)).map charsStr

/-- Captured group of `email.match(/@(.+)$/)`: the first `@` followed by one
or more non-newline characters reaching the end of the string. -/
def domainAfterAtL : List Char → Option (List Char)
  | [] => none
  | c :: rest =>
    if c == '@' then
      if rest ≠ [] && rest.all (fun x => x ≠ '\n') then some rest
      else domainAfterAtL rest
    else domainAfterAtL rest

/-- String version of `domainAfterAtL`. -/
def domainAfterAt (s : String) : Option String :=
  (domainAfterAtL (strChars s)).map charsStr

/-- Free e-mail providers recognized by `analyzeSender`. -/
def freeEmailProviders : List String :=
  ["gmail.com", "yahoo.com", "outlook.com", "hotmail.com", "aol.com",
   "protonmail.com", "mail.com", "icloud.com"]

/-- Brand names scanned for in the display name. -/
def brandNames : List String := ["paypal", "amazon", "microsoft", "apple", "google", "bank"]

/-- Typosquatting variants, in source order. -/
def typosquattingVariants : List (String × List String) :=
  [("paypal", ["paypa1", "paypai", "paypa"]),
   ("amazon", ["arnazon", "amazom", "amaz0n"]),
   ("microsoft", ["micros0ft", "micr0soft"]),
   ("apple", ["appie", "appl3"])]

/-- Suspicious top-level suffixes. -/
def suspiciousTlds : List String :=
  [".tk", ".ml", ".ga", ".cf", ".gq", ".xyz", ".top", ".work", ".click"]

/-- Models `domain.lastIndexOf('.')`. -/
def lastIndexOfDot (s : String) : Int :=
  let idxs := ((strChars s).enum.filter (fun p => p.2 == '.')).map (fun p => p.1)
  match idxs.getLast? with
  | some i => Int.ofNat i
  | none => -1

/-- Models `/^[a-z0-9-]+\.com$/.test(domain)`. -/
def matchesPlainCom (s : String) : Bool :=
  let cs := strChars s
  let n := cs.length
  n ≥ 5 && isPrefixL (strChars ".com") (cs.drop (n - 4)) &&
    (cs.take (n - 4)).all (fun c => ('a' ≤ c && c ≤ 'z') || c.isDigit || c == '-')

/-- Models `/[0o1l]/.test(domain)`. -/
def hasNumericSubstChar (s : String) : Bool :=
  (strChars s).any (fun c => c == '0' || c == 'o' || c == '1' || c == 'l')

/-- One spoofing indicator `{type, severity, description}` as JSON. -/
def indicatorJson (ty sev desc : String) : Json :=
  .obj [("type", .str ty), ("severity", .str sev), ("description", .str desc)]

/-- Strict JS `!==` between a possibly non-string value and a string. -/
def jsStrictNeStr (v : Json) (s : String) : Bool :=
  match v with
  | .str t => t ≠ s
  | _ => true

/-- JS `.length` as used in the display-name guard (strings and arrays have
one; other values yield `undefined`, and `undefined > 0` is false). -/
def jsLengthPos (v : Json) : Bool :=
  match v with
  | .str s => (strChars s).length > 0
  | .arr xs => xs.length > 0
  | _ => false

/-- The display-name indicator block (mismatched embedded address, then brand
impersonation over a free provider), in push order. -/
def displayNameIndicators (o : Oracles) (displayName : Json) (email domain : String)
    (isFree : Bool) : Except String (List Json) :=
  if jsTruthy displayName && jsStrictNeStr displayName email && jsLengthPos displayName then do
    let dstr ← asStringM displayName
    let mismatch :=
      match o.emailLike dstr with
      | some m =>
        if m ≠ email then
          [indicatorJson "display_name_email_mismatch" "high"
            ("Display name contains different email (" ++ m ++ ") than sender (" ++ email ++ ")")]
        else []
      | none => []
    let dl := lowerStr dstr
    let brands := brandNames.filterMap (fun brand =>
      if containsSub brand dl && isFree then
        some (indicatorJson "brand_impersonation" "high"
          ("Display name \"" ++ dstr ++ "\" suggests " ++ brand ++
           " but uses free email provider " ++ domain))
      else none)
    pure (mismatch ++ brands)
  else pure []

/-- Typosquatting indicators in pattern/variant order. -/
def typosquattingIndicators (domain : String) : List Json :=
  typosquattingVariants.flatMap (fun p =>
    p.2.filterMap (fun variant =>
      if containsSub variant domain then
        some (indicatorJson "typosquatting" "high"
          ("Domain " ++ domain ++ " resembles " ++ p.1 ++ " (possible typosquatting)"))
      else none))

/-- Suspicious-TLD indicator. -/
def tldIndicators (domain : String) : List Json :=
  let tld := jsSubstring domain (lastIndexOfDot domain) (Int.ofNat (strChars domain).length)
  if suspiciousTlds.contains tld then
    [indicatorJson "suspicious_tld" "medium" ("Domain uses suspicious TLD " ++ tld)]
  else []

/-- Numeric-substitution indicator (digit present, not a plain `.com` name,
and one of the look-alike characters present). -/
def numericIndicators (domain : String) : List Json :=
  if (strChars domain).any Char.isDigit && !matchesPlainCom domain then
    if hasNumericSubstChar domain then
      [indicatorJson "numeric_substitution" "medium"
        ("Domain contains suspicious numeric substitutions (" ++ domain ++ ")")]
    else []
  else []

/-- Body of `analyzeSender` inside its `try`. -/
def analyzeSenderBody (o : Oracles) (fromV : Json) (displayNameV : Option Json)
    (_subjectV : Option Json) : Except String Json := do
  let fromStr ← asStringM fromV
  let email :=
    match extractAngle fromStr with
    | some e => e
    | none => fromStr
  let displayName := jsOrDefault displayNameV
    (.str (trimStr ((splitOnChar '<' fromStr).headD "")))
  let domain :=
    match domainAfterAt email with
    | some d => lowerStr d
    | none => ""
  let isFree := freeEmailProviders.contains domain
  let dnInds ← displayNameIndicators o displayName email domain isFree
  let indicators := dnInds ++ typosquattingIndicators domain ++
    tldIndicators domain ++ numericIndicators domain
  pure (.obj [("email", .str email), ("domain", .str domain),
              ("is_suspicious", .bool (indicators.length > 0)),
              ("spoofing_indicators", .arr indicators),
              ("free_email_provider", .bool isFree)])

/-- Models `analyzeSender` (lib/tools/local-tools.ts); the `catch` branch
returns `success: false` with a default data payload and NO error string. -/
def analyzeSender (o : Oracles) (fromV : Json) (displayNameV subjectV : Option Json) :
    ToolResult :=
  match analyzeSenderBody o fromV displayNameV subjectV with
  | .ok d => { success := true, data := some d, error := none, cached := none, source := none }
  | .error _ =>
    { success := false,
      data := some (.obj [("email", fromV), ("domain", .str "unknown"),
                          ("is_suspicious", .bool false),
                          ("spoofing_indicators", .arr []),
                          ("free_email_provider", .bool false)]),
      error := none, cached := none, source := none }

/-! ## Reputation tools (lib/tools/threat-intel-tools.ts)

Each function additionally returns a Bool recording whether the reputation
provider was actually called, so that the no-network-call obligations can be
stated directly. -/

/-- Uniform failure result for the VirusTotal tool. -/
def vtFailure (msg : String) : ToolResult :=
  { success := false, data := none, error := some msg, cached := none,
    source := some "virustotal" }

/-- Success payload of `checkUrlReputation` (vendor list truncated to 5). -/
def urlRepJson (r : UrlRep) : Json :=
  .obj [("url", .str r.url), ("malicious", .bool r.malicious),
        ("malicious_count", .num (Int.ofNat r.maliciousCount)),
        ("total_scans", .num (Int.ofNat r.totalScans)),
        ("detected_by", .arr ((r.detectedBy.take 5).map Json.str)),
        ("confidence_score", .num r.confidenceScore)]

/-- Models `checkUrlReputation`: credential check, URL-shape validation
(`new URL` throwing is the `urlHost = none` case), cache-transparent provider
call, graceful failure.  Second component: whether the provider was called. -/
def checkUrlReputation (o : Oracles) (urlV : Option Json) : ToolResult × Bool :=
  if jsFalsyEnv o.vtKey then
    (vtFailure "VirusTotal API key not configured. Tool unavailable.", false)
  else
    let urlStr := jsToStringU urlV
    match o.urlHost urlStr with
    | none => (vtFailure ("Invalid URL format: " ++ urlStr), false)
    | some _ =>
      match o.urlProvider urlStr with
      | .error m => (vtFailure m, true)
      | .ok none => (vtFailure "VirusTotal API unavailable or URL not found", true)
      | .ok (some r) =>
        ({ success := true, data := some (urlRepJson r), error := none,
           cached := none, source := some "virustotal" }, true)

/-- Uniform failure result for the AbuseIPDB tool. -/
def ipFailure (msg : String) : ToolResult :=
  { success := false, data := none, error := some msg, cached := none,
    source := some "abuseipdb" }

/-- Models `/^(\d{1,3}\.){3}\d{1,3}$/.test(ip)`: exactly four dot-separated
runs of one to three decimal digits. -/
def ipRegexTest (ip : String) : Bool :=
  let parts := splitOnChar '.' ip
  parts.length == 4 && parts.all (fun p =>
    (strChars p).length ≥ 1 && (strChars p).length ≤ 3 && (strChars p).all Char.isDigit)

/-- Models `parseInt(octet, 10)` on an all-digit run. -/
def octVal (p : String) : Nat := digitsVal (strChars p)

/-- Whether some dotted-quad octet parses above 255 (the

`octets.some(o => parseInt(o, 10) < 0 || parseInt(o, 10) > 255)` check;
the below-zero disjunct is unsatisfiable on digit runs). -/
def hasBadOctet (ip : String) : Bool :=
  (splitOnChar '.' ip).any (fun p => octVal p > 255)

/-- Four-level risk tier from the abuse confidence score. -/
def riskLevelOf (score : Int) : String :=
  if score ≥ 75 then "critical"
  else if score ≥ 50 then "high"
  else if score ≥ 25 then "medium"
  else "low"

/-- Success payload of `checkIpReputation`. -/
def ipRepJson (r : IpRep) : Json :=
  .obj [("ip", .str r.ip), ("malicious", .bool r.malicious),
        ("abuse_confidence_score", .num r.abuseConfidenceScore),
        ("total_reports", .num (Int.ofNat r.totalReports)),
        ("risk_level", .str (riskLevelOf r.abuseConfidenceScore))]

/-- Models `checkIpReputation`: credential check FIRST, then regex syntax
check, then per-octet range check, then provider call.  Second component:
whether the provider was called. -/
def checkIpReputation (o : Oracles) (ipV : Option Json) : ToolResult × Bool :=
  if jsFalsyEnv o.abuseKey then
    (ipFailure "AbuseIPDB API key not configured. Tool unavailable.", false)
  else
    let ipStr := jsToStringU ipV
    if !ipRegexTest ipStr then
      (ipFailure ("Invalid IP address format: " ++ ipStr), false)
    else if hasBadOctet ipStr then
      (ipFailure ("Invalid IP address format: " ++ ipStr), false)
    else
      match o.ipProvider ipStr with
      | .error m => (ipFailure m, true)
      | .ok none => (ipFailure "AbuseIPDB API unavailable or IP not found", true)
      | .ok (some r) =>
        ({ success := true, data := some (ipRepJson r), error := none,
           cached := none, source := some "abuseipdb" }, true)

/-! ## Email input and tool dispatcher -/

/-- A JS `Date`: either valid with an ISO rendering, or an Invalid Date whose
`toISOString()` throws a `RangeError`. -/
structure JsDate where
  valid : Bool
  iso : String
deriving Repr

/-- The parsed e-mail handed to one analysis invocation (`EmailInput`). -/
structure EmailInput where
  fromAddr : String
  toAddr : String
  subject : String
  body : String
  headers : List (String × String)
  receivedAt : JsDate
deriving Repr

/-- Models `executeTool` (the tool registry/dispatcher of the v1.1 analyzer):
name dispatch over the fixed five tools, filling absent/falsy arguments from
the e-mail, tagging local results with source local, and throwing
(`.error`) on an unknown tool name. -/
def executeTool (o : Oracles) (name : String) (input : List (String × Json))
    (email : EmailInput) : Except String ToolResult :=
  if name = "extract_urls" then
    let r := extractUrls o (jsOrDefault (fieldLookup input "email_body") (.str email.body))
      (fieldLookup input "email_html")
    .ok { r with source := some "local" }
  else if name = "check_authentication" then
    let r := checkAuthentication
      (jsOrDefault (fieldLookup input "headers") (strHeaders email.headers))
    .ok { r with source := some "local" }
  else if name = "analyze_sender" then
    let r := analyzeSender o (jsOrDefault (fieldLookup input "from") (.str email.fromAddr))
      (fieldLookup input "display_name")
      (some (jsOrDefault (fieldLookup input "subject") (.str email.subject)))
    .ok { r with source := some "local" }
  else if name = "check_url_reputation" then
    .ok (checkUrlReputation o (fieldLookup input "url")).1
  else if name = "check_ip_reputation" then
    .ok (checkIpReputation o (fieldLookup input "ip")).1
  else
    .error ("Unknown tool: " ++ name)

/-! ## Conversation and analysis-record model -/

/-- A `tool_use` content block in a model turn. -/
structure ToolUseBlock where
  id : String
  name : String
  input : List (String × Json)
deriving Repr

/-- A content block of a model turn. -/
inductive ContentBlock where
  | text (s : String)
  | toolUse (b : ToolUseBlock)
deriving Repr

/-- Stop reason of a model turn. -/
inductive StopReason where
  | endTurn
  | maxTokens
  | toolUseStop
  | other (s : String)
deriving Repr, DecidableEq

/-- One resolved model turn. -/
structure ModelResponse where
  stopReason : StopReason
  content : List ContentBlock
  model : String
  inputTokens : Nat
  outputTokens : Nat
deriving Repr

/-- One outcome of `anthropic.messages.create` raced against the 7s timer:
either the promise rejects (`failure`: API error or the race timing out)
or it resolves after `dur` milliseconds. -/
inductive ModelEvent where
  | failure (msg : String) (dur : Nat)
  | response (r : ModelResponse) (dur : Nat)
deriving Repr

/-- Metadata attached to an analysis record. -/
structure AnalysisMetadata where
  model : String
  latency : Nat
  inputTokens : Nat
  outputTokens : Nat
  toolExecutionTime : Nat
deriving Repr

/-- One logged tool invocation (`ToolCall` of types/email.ts; the optional
`result`/`endTime`/`duration` fields are always set on logged entries). -/
structure ToolCall where
  id : String
  name : String
  input : List (String × Json)
  result : ToolResult
  startTime : Nat
  endTime : Nat
  duration : Nat
deriving Repr

/-- The analysis record handed back to the caller.  Because the source
spreads `JSON.parse` output without validation, the verdict/confidence/...
fields are modelled as the raw field list of the spread object (`payload`);
`toolCalls` and `metadata` are the two keys the source always overrides. -/
structure EmailAnalysis where
  payload : List (String × Json)
  toolCalls : Option (List ToolCall)
  metadata : AnalysisMetadata
deriving Repr

/-- Field access on the returned record. -/
def payloadLookup (a : EmailAnalysis) (k : String) : Option Json :=
  fieldLookup a.payload k

/-- The tool-call log of a record (empty when the field is absent). -/
def toolCallsOf (a : EmailAnalysis) : List ToolCall :=
  a.toolCalls.getD []

/-! ## Result assembler (`parseFinalResponse`) -/

/-- First text block of a turn (`content.find(b => b.type === 'text')`). -/
def firstTextBlock : List ContentBlock → Option String
  | [] => none
  | .text s :: _ => some s
  | .toolUse _ :: rest => firstTextBlock rest

/-- All tool_use blocks of a turn, in order. -/
def toolBlocksOf (content : List ContentBlock) : List ToolUseBlock :=
  content.filterMap (fun b => match b with
    | .toolUse tb => some tb
    | .text _ => none)

/-- Index of the last newline of a character list, if any. -/
def lastNlIdx (cs : List Char) : Option Nat :=
  match ((cs.enum.filter (fun p => p.2 == '\n')).map (fun p => p.1)).getLast? with
  | some i => some i
  | none => none

/-- Models the anchored prefix-fence removal applied to the text after the
marker: the greedy-with-backtrack match consumes the whitespace run up to and
including its last newline; with no newline in the run the regex does not
match and the text is unchanged. -/
def stripFencePre (afterMarker : List Char) : Option (List Char) :=
  let w := afterMarker.takeWhile isWsChar
  match lastNlIdx w with
  | some i => some (afterMarker.drop (i + 1))
  | none => none

/-- Models the anchored suffix-fence removal: remove from the leftmost newline that
is followed by three backticks and only whitespace to the end. -/
def stripFenceSuf (cs : List Char) : List Char :=
  match cs with
  | c :: rest =>
    if c == '\n' && isPrefixL (strChars "```") rest && (rest.drop 3).all isWsChar then []
    else c :: stripFenceSuf rest
  | [] => []

/-- Models the fence-stripping step of `parseFinalResponse` on the trimmed
model text. -/
def stripFences (t : String) : String :=
  let cs := strChars t
  if isPrefixL (strChars "```json") cs then
    let afterPre := match stripFencePre (cs.drop 7) with
      | some r => r
      | none => cs
    charsStr (stripFenceSuf afterPre)
  else if isPrefixL (strChars "```") cs then
    let afterPre := match stripFencePre (cs.drop 3) with
      | some r => r
      | none => cs
    charsStr (stripFenceSuf afterPre)
  else t

/-- Enumerable own fields produced by spreading a JS value into an object
literal (`{...parsed}`): objects contribute their fields, arrays and strings
their indexed elements, primitives nothing. -/
def spreadFields : Json → List (String × Json)
  | .obj fs => fs
  | .arr xs => xs.enum.map (fun p => (toString p.1, p.2))
  | .str s => (strChars s).enum.map (fun p => (toString p.1, Json.str (charsStr [p.2])))
  | _ => []

/-- Record assembled from a parsed final payload: the spread fields verbatim
(minus the two keys the source overrides), the accumulated tool-call log
(omitted when empty), and the metadata.  NO re-validation of verdict or
confidence occurs here, exactly as in the source. -/
def assembleFromJson (j : Json) (toolCalls : List ToolCall) (md : AnalysisMetadata) :
    EmailAnalysis :=
  { payload := (spreadFields j).filter
      (fun kv => !(kv.1 == "toolCalls") && !(kv.1 == "metadata")),
    toolCalls := if toolCalls.length > 0 then some toolCalls else none,
    metadata := md }

/-- Models `parseFinalResponse` (v1.1): find the text block, strip decorative
fencing, `JSON.parse` it, and spread the result.  `.error` models the throws
(`No text response from Claude`, or the `JSON.parse` SyntaxError). -/
def parseFinalResponse (content : List ContentBlock) (toolCalls : List ToolCall)
    (md : AnalysisMetadata) : Except String EmailAnalysis :=
  match firstTextBlock content with
  | none => .error "No text response from Claude"
  | some s =>
    match jsonParse (stripFences (trimStr s)) with
    | none => .error "Unexpected token in JSON"
    | some j => .ok (assembleFromJson j toolCalls md)

/-! ## Conservative placeholder (`buildConservativeAnalysis`) -/

/-- Model identifier hard-coded for conservative/fallback metadata. -/
def MODEL_NAME : String := "claude-haiku-4-5-20251001"

/-- The summary of the conservative placeholder. -/
def conservativeSummary : String :=
  "Analysis incomplete due to timeout. Email flagged as suspicious for manual review. Please verify sender authenticity and avoid clicking links until you can confirm this email is legitimate."

/-- The reasoning steps of the conservative placeholder for `n` executed
tools, verbatim from the source. -/
def conservativeReasoning (n : Nat) : List Json :=
  [.str "Analysis started but did not complete within time limit",
   .str ("Executed " ++ toString n ++ (if n == 1 then " tool" else " tools") ++ " before timeout"),
   .str "Returning conservative \"suspicious\" verdict for safety",
   .str "Recommend manual review of this email"]

/-- Models `buildConservativeAnalysis`: verdict `suspicious`, confidence 50,
no threats, all-none authentication, fixed summary, reasoning steps naming the
executed-tool count, the accumulated log, and the metadata. -/
def buildConservativeAnalysis (_email : EmailInput) (toolCalls : List ToolCall)
    (md : AnalysisMetadata) : EmailAnalysis :=
  { payload :=
      [("verdict", .str "suspicious"),
       ("confidence", .num 50),
       ("threats", .arr []),
       ("authentication", .obj [("spf", .str "none"), ("dkim", .str "none"),
                                ("dmarc", .str "none")]),
       ("summary", .str conservativeSummary),
       ("reasoning", .arr (conservativeReasoning toolCalls.length))],
    toolCalls := if toolCalls.length > 0 then some toolCalls else none,
    metadata := md }

/-! ## The orchestration loop (`analyzeWithTools`, v1.1) -/

/-- Iteration ceiling of the tool loop (v1.1 value). -/
def MAX_TOOL_CALLS : Nat := 3

/-- Wall-clock ceiling of the tool-use phase in milliseconds. -/
def MAX_TOOL_LOOP_TIME_MS : Nat := 5000

/-- Overall analysis budget in milliseconds. -/
def MAX_ANALYSIS_TIME_MS : Nat := 8000

/-- Minimum remaining budget needed to attempt the fallback analysis. -/
def MIN_FALLBACK_TIME_MS : Nat := 2500

/-- How (and why) one invocation of the loop ended. -/
inductive ExitKind where
  | finished
  | parseFailure (msg : String)
  | iterCeiling
  | phaseClock
  | callFailure (msg : String)
  | unexpectedStop
deriving Repr, DecidableEq

/-- Execute the tool_use blocks of one turn in order: a successful execution
is timestamped and appended to the log (consuming the next scripted duration);
a throwing execution only reports `is_error` to the model and leaves the log
unchanged.  Returns (new log entries, remaining durations, new clock,
added tool-execution time). -/
def processToolUseBlocks (o : Oracles) (email : EmailInput) :
    List ToolUseBlock → List Nat → Nat → List ToolCall × List Nat × Nat × Nat
  | [], durs, now => ([], durs, now, 0)
  | b :: bs, durs, now =>
    match executeTool o b.name b.input email with
    | .ok result =>
      let dur := durs.headD 0
      let rest := processToolUseBlocks o email bs durs.tail (now + dur)
      (⟨b.id, b.name, b.input, result, now, now + dur, dur⟩ :: rest.1,
       rest.2.1, rest.2.2.1, dur + rest.2.2.2)
    | .error _ => processToolUseBlocks o email bs durs now

/-- Handle a finished model turn: a successful parse is the final record; a
parse failure is caught by the surrounding try and yields the conservative
placeholder (error classes 4 and 5 coincide here). -/
def finishTurn (email : EmailInput) (r : ModelResponse) (toolCalls : List ToolCall)
    (totalToolTime now : Nat) : EmailAnalysis × ExitKind :=
  match parseFinalResponse r.content toolCalls
      ⟨r.model, now, r.inputTokens, r.outputTokens, totalToolTime⟩ with
  | .ok a => (a, .finished)
  | .error m =>
    (buildConservativeAnalysis email toolCalls ⟨MODEL_NAME, now, 0, 0, totalToolTime⟩,
     .parseFailure m)

/-- The tool-execution loop of `analyzeWithTools` (everything inside the inner
`try`, plus the post-loop conservative return and the inner `catch`).  The
clock starts at 0 = invocation start; each model call consumes the next
scripted event.  An exhausted script behaves as the 7s per-call race losing. -/
def runLoop (o : Oracles) (email : EmailInput) :
    List ModelEvent → List Nat → List ToolCall → Nat → Nat → Nat →
    EmailAnalysis × ExitKind
  | events, durs, toolCalls, totalToolTime, now, iter =>
    if iter < MAX_TOOL_CALLS then
      if now > MAX_TOOL_LOOP_TIME_MS then
        (buildConservativeAnalysis email toolCalls ⟨MODEL_NAME, now, 0, 0, totalToolTime⟩,
         .phaseClock)
      else
        match events with
        | [] =>
          (buildConservativeAnalysis email toolCalls
            ⟨MODEL_NAME, now + 7000, 0, 0, totalToolTime⟩, .callFailure "Claude API timeout")
        | .failure m dur :: _ =>
          (buildConservativeAnalysis email toolCalls
            ⟨MODEL_NAME, now + dur, 0, 0, totalToolTime⟩, .callFailure m)
        | .response r dur :: rest =>
          let now2 := now + dur
          match r.stopReason with
          | .endTurn => finishTurn email r toolCalls totalToolTime now2
          | .maxTokens => finishTurn email r toolCalls totalToolTime now2
          | .toolUseStop =>
            let blocks := toolBlocksOf r.content
            if blocks.isEmpty then finishTurn email r toolCalls totalToolTime now2
            else
              let st := processToolUseBlocks o email blocks durs now2
              runLoop o email rest st.2.1 (toolCalls ++ st.1)
                (totalToolTime + st.2.2.2) st.2.2.1 (iter + 1)
          | .other _ =>
            (buildConservativeAnalysis email toolCalls
              ⟨MODEL_NAME, now2, 0, 0, totalToolTime⟩, .unexpectedStop)
    else
      (buildConservativeAnalysis email toolCalls ⟨MODEL_NAME, now, 0, 0, totalToolTime⟩,
       .iterCeiling)

/-! ## Fallback analyzer (`analyzeEmail`, lib/claude-analyzer.ts) -/

/-- First non-falsy value in a string-valued header chain, with default. -/
def hdrChainStr (m : List (String × String)) : List String → String → String
  | [], d => d
  | k :: ks, d =>
    match m.lookup k with
    | some v => if v = "" then hdrChainStr m ks d else v
    | none => hdrChainStr m ks d

/-- Models `formatEmailForAnalysis` of the v1.1 analyzer; building the message
calls `receivedAt.toISOString()`, which throws a `RangeError` on an Invalid
Date.  This is the only throwing site outside the inner try of the loop. -/
def formatEmailForAnalysis (email : EmailInput) : Except String String :=
  if email.receivedAt.valid then
    .ok ("Analyze this email for phishing threats:\n\n**From**: " ++ email.fromAddr ++
      "\n**To**: " ++ email.toAddr ++ "\n**Subject**: " ++ email.subject ++
      "\n**Received**: " ++ email.receivedAt.iso ++
      "\n\n**Authentication Headers**:\n- SPF: " ++
      hdrChainStr email.headers ["received-spf", "spf"] "none" ++
      "\n- DKIM: " ++ hdrChainStr email.headers ["dkim-signature", "dkim"] "none" ++
      "\n- DMARC: " ++ hdrChainStr email.headers ["dmarc"] "none" ++
      "\n\n**Email Body**:\n" ++ email.body ++
      "\n\n---\n\nUse the available tools to gather information, then provide your detailed security analysis.")
  else .error "Invalid time value"

/-- Record assembled by the v1.0 analyzer: spread of the parsed payload with
only the `metadata` key overridden (no typed tool-call log is attached). -/
def assembleSimple (j : Json) (md : AnalysisMetadata) : EmailAnalysis :=
  { payload := (spreadFields j).filter (fun kv => !(kv.1 == "metadata")),
    toolCalls := none,
    metadata := md }

/-- Models `analyzeEmail` (lib/claude-analyzer.ts): single-shot call whose
`catch` re-wraps and RE-THROWS every internal failure as
`Email analysis failed: ...`.  The model call outcome is the `msg` oracle;
the formatted message is built first (throwing on an invalid date); the
first content block must be text and must parse as JSON.  The latency
metadata is abstracted to 0 (no claim depends on it). -/
def analyzeEmail (email : EmailInput) (msg : Except String ModelResponse) :
    Except String EmailAnalysis :=
  let body : Except String EmailAnalysis := do
    let _ ← formatEmailForAnalysis email
    let m ← msg
    match m.content.head? with
    | some (.text t) =>
      match jsonParse t with
      | some j => .ok (assembleSimple j ⟨m.model, 0, m.inputTokens, m.outputTokens, 0⟩)
      | none => .error "Invalid JSON response from Claude"
    | some (.toolUse _) => .error "Unexpected response format from Claude"
    | none => .error "TypeError: cannot read content"
  match body with
  | .ok a => .ok a
  | .error m => .error ("Email analysis failed: " ++ m)

/-! ## Degradation policy and invocation boundary -/

/-- Models the outer `catch` block of the v1.1 `analyzeWithTools` (the
Degradation and Fallback Policy): with insufficient remaining budget, the
conservative placeholder; otherwise one fallback attempt via `analyzeEmail`,
whose own failure propagates (`fallbackToSimpleAnalysis` does not catch). -/
def degradationPolicy (email : EmailInput) (elapsed : Nat) (toolCalls : List ToolCall)
    (totalToolTime : Nat) (msg : Except String ModelResponse) :
    Except String EmailAnalysis :=
  if elapsed + MIN_FALLBACK_TIME_MS > MAX_ANALYSIS_TIME_MS then
    .ok (buildConservativeAnalysis email toolCalls ⟨MODEL_NAME, elapsed, 0, 0, totalToolTime⟩)
  else
    analyzeEmail email msg

/-- Models `analyzeWithTools` (v1.1): the pre-loop preparation (only throwing
site: formatting the e-mail) followed by the tool loop; every loop-internal
failure is already absorbed by the inner catch inside `runLoop`, so only a
preparation throw reaches the outer catch, with elapsed ≈ 0 and no tools run. -/
def analyzeWithTools (o : Oracles) (email : EmailInput) (events : List ModelEvent)
    (toolDurs : List Nat) (fallbackMsg : Except String ModelResponse) :
    Except String EmailAnalysis :=
  match formatEmailForAnalysis email with
  | .ok _ => .ok (runLoop o email events toolDurs [] 0 0 0).1
  | .error _ => degradationPolicy email 0 [] 0 fallbackMsg

/-! ## Concrete fixtures for witnesses and counterexamples -/

/-- Oracles with no credentials, no URL matches, no parseable URLs. -/
def trivialOracles : Oracles :=
  { urlMatch := fun _ => [], urlHost := fun _ => none, emailLike := fun _ => none,
    vtKey := none, abuseKey := none,
    urlProvider := fun _ => .ok none, ipProvider := fun _ => .ok none }

/-- Oracles with both credentials configured. -/
def keyedOracles : Oracles :=
  { trivialOracles with vtKey := some "vt-key", abuseKey := some "abuse-key" }

/-- A benign, well-formed e-mail with a valid receipt date. -/
def sampleEmail : EmailInput :=
  { fromAddr := "alice@example.com", toAddr := "agent@example.org",
    subject := "hello", body := "hi there",
    headers := [("received-spf", "pass")],
    receivedAt := ⟨true, "2025-01-01T00:00:00.000Z"⟩ }

/-- The same e-mail carrying an Invalid Date receipt timestamp. -/
def invalidDateEmail : EmailInput :=
  { sampleEmail with receivedAt := ⟨false, ""⟩ }

/-- A final model text whose JSON carries an out-of-range confidence. -/
def ce1Text : String := "\x7b\"verdict\": \"phishing\", \"confidence\": 150\x7d"

/-- A script whose single turn finishes with `ce1Text`. -/
def ce1Events : List ModelEvent :=
  [.response ⟨.endTurn, [.text ce1Text], "claude-haiku-4-5-20251001", 1, 2⟩ 0]

/-- An `extract_urls` request block. -/
def sampleToolBlock (i : String) : ToolUseBlock :=
  ⟨i, "extract_urls", [("email_body", .str "hello")]⟩

/-- A model turn requesting `n` tool calls at once. -/
def toolTurn (n : Nat) : ModelEvent :=
  .response ⟨.toolUseStop, (List.range n).map (fun i => .toolUse (sampleToolBlock (toString i))),
             "claude-haiku-4-5-20251001", 0, 0⟩ 0

/-- Boolean success test for `Except`. -/
def exceptOk {ε α : Type} : Except ε α → Bool
  | .ok _ => true
  | .error _ => false

/-- Number of tool_use blocks a scripted event would deliver. -/
def toolBlockCount : ModelEvent → Nat
  | .failure _ _ => 0
  | .response r _ => (toolBlocksOf r.content).length

/-- Start-timestamp ordering on logged tool calls. -/
def startLE (a b : ToolCall) : Prop := a.startTime ≤ b.startTime

/-! ## Helper lemmas: header chains over string-valued mappings -/

/-- A successful lookup in a string-valued headers object yields a string
that is one of the values of the mapping. -/
theorem jProp_strHeaders {m : List (String × String)} {k : String} {j : Json}
    (h : jProp (strHeaders m) k = some j) :
    ∃ kv ∈ m, kv.1 = k ∧ j = .str kv.2 := by
  induction m with
  | nil => simp [jProp, strHeaders, List.lookup] at h
  | cons p rest ih =>
    simp only [jProp, strHeaders, List.map, List.lookup] at h
    cases hb : (k == p.1) with
    | true =>
      rw [hb] at h
      simp at h
      exact ⟨p, by simp, (eq_of_beq hb).symm, h.symm⟩
    | false =>
      rw [hb] at h
      obtain ⟨kv, hmem, hk1, hj⟩ := ih (by simpa [jProp, strHeaders] using h)
      exact ⟨kv, by simp [hmem], hk1, hj⟩

/-- A header chain over a string-valued mapping selects a string value of the
mapping. -/
theorem headerChain_strHeaders {m : List (String × String)} {ks : List String} {j : Json}
    (h : headerChain (strHeaders m) ks = some j) :
    ∃ kv ∈ m, j = .str kv.2 := by
  induction ks with
  | nil => simp [headerChain] at h
  | cons k rest ih =>
    simp only [headerChain] at h
    cases hl : jProp (strHeaders m) k with
    | none =>
      rw [hl] at h
      exact ih h
    | some v =>
      rw [hl] at h
      by_cases ht : jsTruthy v
      · simp [ht] at h
        obtain ⟨kv, hmem, _, hj⟩ := jProp_strHeaders hl
        exact ⟨kv, hmem, h ▸ hj⟩
      · simp [ht] at h
        exact ih h

/-- Classifying a chain selection over string-valued headers never throws,
and returns the classifier applied to the lowercased selected value. -/
theorem classifyWith_strHeaders (f : String → String) (m : List (String × String))
    (ks : List String) :
    ∃ r, classifyWith f (headerChain (strHeaders m) ks) = .ok r ∧
      ∀ v, headerChain (strHeaders m) ks = some (.str v) → r = f (lowerStr v) := by
  cases hc : headerChain (strHeaders m) ks with
  | none =>
    refine ⟨"none", by simp [classifyWith], ?_⟩
    intro v hv
    cases hv
  | some j =>
    obtain ⟨kv, _, hj⟩ := headerChain_strHeaders hc
    subst hj
    refine ⟨f (lowerStr kv.2), by simp [classifyWith, asStringM], ?_⟩
    intro v hv
    cases hv
    rfl

/-- Over string-valued headers, `checkAuthBody` succeeds and each component
is the corresponding classification of its selected chain value. -/
theorem checkAuthBody_strHeaders (m : List (String × String)) :
    ∃ d, checkAuthBody (strHeaders m) = .ok d ∧
      Except.ok d.spf = classifyWith classifySpfValue (headerChain (strHeaders m) spfKeys) ∧
      Except.ok d.dkim = classifyWith classifyDkimValue (headerChain (strHeaders m) dkimKeys) ∧
      Except.ok d.dmarc = classifyWith classifyDmarcValue (headerChain (strHeaders m) dmarcKeys) := by
  obtain ⟨r1, h1, _⟩ := classifyWith_strHeaders classifySpfValue m spfKeys
  obtain ⟨r2, h2, _⟩ := classifyWith_strHeaders classifyDkimValue m dkimKeys
  obtain ⟨r3, h3, _⟩ := classifyWith_strHeaders classifyDmarcValue m dmarcKeys
  refine ⟨⟨r1, r2, r3, headerChain (strHeaders m) spfKeys,
    headerChain (strHeaders m) dkimKeys, headerChain (strHeaders m) dmarcKeys⟩, ?_,
    h1.symm, h2.symm, h3.symm⟩
  simp [checkAuthBody, h1, h2, h3, Except.bind, bind, pure, Except.pure]

/-! ## Claim C5: SPF softfail precedence -/

/-- C5 counterexample.  The claim states that every headers mapping whose SPF
header value contains the substring `softfail` is classified exactly
`softfail`.  The code checks `pass` first, so the value
`softfail (sender is compass.example)` — which contains `pass` inside
`compass` — is classified `pass`, not `softfail`. -/
theorem c5_counterexample :
    (checkAuthBody (strHeaders
      [("received-spf", "softfail (sender is compass.example)")])).map AuthData.spf
      = .ok "pass" ∧
    containsSub "softfail" (lowerStr "softfail (sender is compass.example)") = true ∧
    "pass" ≠ "softfail" := by
  exact ⟨rfl, rfl, by decide⟩

/-- C5 (amended): if the selected SPF header value contains `softfail`, the
classification is never `fail`; and it is exactly `softfail` whenever the
value does not also contain the substring `pass` (which takes precedence). -/
theorem c5_softfail_never_fail (m : List (String × String)) (v : String)
    (hc : headerChain (strHeaders m) spfKeys = some (.str v))
    (hsf : containsSub "softfail" (lowerStr v) = true) :
    ∃ d, checkAuthBody (strHeaders m) = .ok d ∧ d.spf ≠ "fail" ∧
      (containsSub "pass" (lowerStr v) = false → d.spf = "softfail") := by
  obtain ⟨r, hr, hval⟩ := classifyWith_strHeaders classifySpfValue m spfKeys
  obtain ⟨d, hd, hspf, _, _⟩ := checkAuthBody_strHeaders m
  have hdspf : d.spf = classifySpfValue (lowerStr v) := by
    have := hval v hc
    rw [← hspf] at hr
    cases hr
    exact this
  refine ⟨d, hd, ?_, ?_⟩
  · rw [hdspf]
    unfold classifySpfValue
    by_cases hp : containsSub "pass" (lowerStr v) = true
    · simp [hp]
    · simp only [Bool.not_eq_true] at hp
      simp [hp, hsf]
  · intro hp
    rw [hdspf]
    unfold classifySpfValue
    simp [hp, hsf]

/-- C5 witness: a plain `softfail` SPF header is classified `softfail`. -/
theorem c5_witness :
    ∃ d, checkAuthBody (strHeaders [("received-spf", "v=spf1 softfail")]) = .ok d ∧
      d.spf ≠ "fail" ∧ d.spf = "softfail" := by
  obtain ⟨d, hd, hne, hsf⟩ :=
    c5_softfail_never_fail [("received-spf", "v=spf1 softfail")] "v=spf1 softfail" rfl rfl
  exact ⟨d, hd, hne, hsf rfl⟩

/-! ## Claim C6: DKIM classification -/

/-- C6 counterexample.  With BOTH a `dkim-signature` header and an
`authentication-results` header carrying an explicit `dkim=pass` token
present, the header chain selects the (token-free) `dkim-signature` value
first, so DKIM classifies as `none` although the token is present in the
mapping — against the claim that classification is `pass` exactly when the
token is found. -/
theorem c6_counterexample :
    (checkAuthBody (strHeaders
      [("dkim-signature", "v=1; a=rsa-sha256; d=example.com; s=sel"),
       ("authentication-results", "mx.example.com; dkim=pass header.d=example.com")])).map
        AuthData.dkim = .ok "none" ∧
    containsSub "dkim=pass"
      (lowerStr "mx.example.com; dkim=pass header.d=example.com") = true := by
  exact ⟨rfl, rfl⟩

/-- C6 (amended): DKIM never classifies `pass` merely from the presence of a
DKIM-Signature header — `pass` requires some header value of the mapping to
contain an explicit `dkim=pass` token; and when no value contains any of the
`dkim=pass/fail/neutral` tokens the classification is `none`.  (The chain
selects `dkim-signature` before `authentication-results`, so a token present
only in the latter is shadowed — see the counterexample.) -/
theorem c6_dkim_token_required (m : List (String × String)) :
    ((∀ kv ∈ m, containsSub "dkim=pass" (lowerStr kv.2) = false ∧
        containsSub "dkim=fail" (lowerStr kv.2) = false ∧
        containsSub "dkim=neutral" (lowerStr kv.2) = false) →
      (checkAuthBody (strHeaders m)).map AuthData.dkim = .ok "none") ∧
    (∀ d, checkAuthBody (strHeaders m) = .ok d → d.dkim = "pass" →
      ∃ kv ∈ m, containsSub "dkim=pass" (lowerStr kv.2) = true) := by
  obtain ⟨r, hr, hval⟩ := classifyWith_strHeaders classifyDkimValue m dkimKeys
  obtain ⟨d, hd, _, hdkim, _⟩ := checkAuthBody_strHeaders m
  have hdd : d.dkim = r := by
    rw [← hdkim] at hr
    cases hr
    rfl
  constructor
  · intro hno
    rw [hd]
    simp only [Except.map]
    rw [hdd]
    cases hc : headerChain (strHeaders m) dkimKeys with
    | none =>
      rw [hc] at hr
      simp [classifyWith] at hr
      rw [hr]
    | some j =>
      obtain ⟨kv, hmem, hj⟩ := headerChain_strHeaders hc
      subst hj
      have := hval kv.2 hc
      obtain ⟨h1, h2, h3⟩ := hno kv hmem
      rw [this]
      unfold classifyDkimValue
      simp [h1, h2, h3]
  · intro d2 hd2 hpass
    have hdeq : d2 = d := by rw [hd] at hd2; cases hd2; rfl
    rw [hdeq, hdd] at hpass
    cases hc : headerChain (strHeaders m) dkimKeys with
    | none =>
      rw [hc] at hr
      simp [classifyWith] at hr
      rw [← hr] at hpass
      exact absurd hpass (by decide)
    | some j =>
      obtain ⟨kv, hmem, hj⟩ := headerChain_strHeaders hc
      subst hj
      have hre := hval kv.2 hc
      rw [hre] at hpass
      refine ⟨kv, hmem, ?_⟩
      by_contra hnp
      simp only [Bool.not_eq_true] at hnp
      unfold classifyDkimValue at hpass
      simp only [hnp, Bool.false_eq_true, if_false] at hpass
      by_cases h2 : containsSub "dkim=fail" (lowerStr kv.2) = true <;>
        by_cases h3 : containsSub "dkim=neutral" (lowerStr kv.2) = true <;>
        simp [h2, h3] at hpass

/-- C6 witness: a token-free mapping classifies DKIM as `none`, and a mapping
whose classification is `pass` indeed contains the token. -/
theorem c6_witness :
    (checkAuthBody (strHeaders [("received-spf", "pass")])).map AuthData.dkim = .ok "none" ∧
    ∃ kv ∈ [("authentication-results", "x; dkim=pass")],
      containsSub "dkim=pass" (lowerStr kv.2) = true := by
  constructor
  · exact (c6_dkim_token_required [("received-spf", "pass")]).1 (by decide)
  · exact (c6_dkim_token_required [("authentication-results", "x; dkim=pass")]).2
      ⟨"none", "pass", "none", none,
        some (.str "x; dkim=pass"), some (.str "x; dkim=pass")⟩ rfl rfl

/-! ## Claim C7: IP octet-range validation -/

/-- C7 counterexample.  The credential check precedes the syntax check: with
the AbuseIPDB credential unset, the out-of-range dotted quad `256.1.1.1` is
rejected with the credential message, not with the claimed
`Invalid IP address format` error (no provider call is made either way). -/
theorem c7_counterexample :
    checkIpReputation trivialOracles (some (.str "256.1.1.1")) =
      (ipFailure "AbuseIPDB API key not configured. Tool unavailable.", false) ∧
    "AbuseIPDB API key not configured. Tool unavailable." ≠
      "Invalid IP address format: 256.1.1.1" := by
  exact ⟨rfl, by decide⟩

/-- C7 (amended): for every dotted-quad string with an out-of-range octet,
`checkIpReputation` fails (`success = false`) and never calls the provider;
the failure carries the `Invalid IP address format` message whenever the
credential is configured (with the credential unset the earlier credential
check produces its own message instead). -/
theorem c7_bad_octet_rejected (o : Oracles) (ip : String)
    (hre : ipRegexTest ip = true) (hoct : hasBadOctet ip = true) :
    (checkIpReputation o (some (.str ip))).1.success = false ∧
    (checkIpReputation o (some (.str ip))).2 = false ∧
    (jsFalsyEnv o.abuseKey = false →
      (checkIpReputation o (some (.str ip))).1.error =
        some ("Invalid IP address format: " ++ ip)) := by
  by_cases hk : jsFalsyEnv o.abuseKey
  · refine ⟨?u1, ?u2, ?u3⟩ <;> simp [checkIpReputation, hk, ipFailure]
  · simp only [Bool.not_eq_true] at hk
    have hstr : jsToStringU (some (Json.str ip)) = ip := rfl
    refine ⟨?_, ?_, fun _ => ?_⟩ <;>
      simp [checkIpReputation, hk, hstr, hre, hoct, ipFailure]

/-- C7 witness: with the credential configured, `256.1.1.1` is rejected with
the format error and without a provider call. -/
theorem c7_witness :
    (checkIpReputation keyedOracles (some (.str "256.1.1.1"))).1.success = false ∧
    (checkIpReputation keyedOracles (some (.str "256.1.1.1"))).2 = false ∧
    (checkIpReputation keyedOracles (some (.str "256.1.1.1"))).1.error =
      some ("Invalid IP address format: " ++ "256.1.1.1") := by
  obtain ⟨h1, h2, h3⟩ := c7_bad_octet_rejected keyedOracles "256.1.1.1" rfl rfl
  exact ⟨h1, h2, h3 rfl⟩

/-! ## Claim C8: missing credentials -/

/-- C8: with the corresponding credential environment variable unset (or
empty), each reputation tool fails with a message naming the missing
credential and the provider is never called. -/
theorem c8_missing_credential (o : Oracles) (urlV ipV : Option Json) :
    (jsFalsyEnv o.vtKey = true →
      checkUrlReputation o urlV =
        (vtFailure "VirusTotal API key not configured. Tool unavailable.", false)) ∧
    (jsFalsyEnv o.abuseKey = true →
      checkIpReputation o ipV =
        (ipFailure "AbuseIPDB API key not configured. Tool unavailable.", false)) := by
  constructor
  · intro h
    simp [checkUrlReputation, h]
  · intro h
    simp [checkIpReputation, h]

/-- C8 witness at the credential-free oracle. -/
theorem c8_witness :
    checkUrlReputation trivialOracles (some (.str "http://example.com")) =
      (vtFailure "VirusTotal API key not configured. Tool unavailable.", false) ∧
    checkIpReputation trivialOracles (some (.str "1.2.3.4")) =
      (ipFailure "AbuseIPDB API key not configured. Tool unavailable.", false) := by
  exact ⟨(c8_missing_credential trivialOracles (some (.str "http://example.com"))
      (some (.str "1.2.3.4"))).1 rfl,
    (c8_missing_credential trivialOracles (some (.str "http://example.com"))
      (some (.str "1.2.3.4"))).2 rfl⟩

/-! ## Claim C9: tool-outcome unambiguity -/

/-- C9 counterexample.  The internal-error branch of `extractUrls` (reachable
when the model supplies a truthy non-string `email_body`) returns
`success = false` with NO error string (and with a default data payload) —
against the claim that every failed outcome carries a non-null error. -/
theorem c9_counterexample :
    (extractUrls trivialOracles (.num 1) none).success = false ∧
    (extractUrls trivialOracles (.num 1) none).error = none ∧
    (extractUrls trivialOracles (.num 1) none).data.isSome = true := by
  exact ⟨rfl, rfl, rfl⟩

/-- Shape disjunction for `checkUrlReputation` outcomes. -/
theorem checkUrlReputation_shape (o : Oracles) (urlV : Option Json) :
    ((checkUrlReputation o urlV).1.success = true ∧
     (checkUrlReputation o urlV).1.data.isSome = true ∧
     (checkUrlReputation o urlV).1.error = none) ∨
    ((checkUrlReputation o urlV).1.success = false ∧
     (checkUrlReputation o urlV).1.error.isSome = true ∧
     (checkUrlReputation o urlV).1.data = none) := by
  by_cases hk : jsFalsyEnv o.vtKey = true
  · right; simp [checkUrlReputation, hk, vtFailure]
  · simp only [Bool.not_eq_true] at hk
    cases hh : o.urlHost (jsToStringU urlV) with
    | none => right; simp [checkUrlReputation, hk, hh, vtFailure]
    | some hst =>
      cases hp : o.urlProvider (jsToStringU urlV) with
      | error m => right; simp [checkUrlReputation, hk, hh, hp, vtFailure]
      | ok r =>
        cases r with
        | none => right; simp [checkUrlReputation, hk, hh, hp, vtFailure]
        | some rep => left; simp [checkUrlReputation, hk, hh, hp]

/-- Shape disjunction for `checkIpReputation` outcomes. -/
theorem checkIpReputation_shape (o : Oracles) (ipV : Option Json) :
    ((checkIpReputation o ipV).1.success = true ∧
     (checkIpReputation o ipV).1.data.isSome = true ∧
     (checkIpReputation o ipV).1.error = none) ∨
    ((checkIpReputation o ipV).1.success = false ∧
     (checkIpReputation o ipV).1.error.isSome = true ∧
     (checkIpReputation o ipV).1.data = none) := by
  by_cases hk : jsFalsyEnv o.abuseKey = true
  · right; simp [checkIpReputation, hk, ipFailure]
  · simp only [Bool.not_eq_true] at hk
    by_cases hre : ipRegexTest (jsToStringU ipV) = true
    · by_cases hoc : hasBadOctet (jsToStringU ipV) = true
      · right; simp [checkIpReputation, hk, hre, hoc, ipFailure]
      · simp only [Bool.not_eq_true] at hoc
        cases hp : o.ipProvider (jsToStringU ipV) with
        | error m => right; simp [checkIpReputation, hk, hre, hoc, hp, ipFailure]
        | ok r =>
          cases r with
          | none => right; simp [checkIpReputation, hk, hre, hoc, hp, ipFailure]
          | some rep => left; simp [checkIpReputation, hk, hre, hoc, hp]
    · simp only [Bool.not_eq_true] at hre
      right; simp [checkIpReputation, hk, hre, ipFailure]

/-- C9 (amended): the reputation tools are unambiguous — success carries a
payload and no error, failure carries an error and no payload; the local
tools carry a payload and no error on success, but their internal-error
branches return `success = false` with a default payload and NO error
string. -/
theorem c9_outcome_shapes (o : Oracles) (urlV ipV : Option Json)
    (emailBody : Json) (emailHtml : Option Json) (headers : Json) :
    (((checkUrlReputation o urlV).1.success = true →
        (checkUrlReputation o urlV).1.data.isSome = true ∧
        (checkUrlReputation o urlV).1.error = none) ∧
      ((checkUrlReputation o urlV).1.success = false →
        (checkUrlReputation o urlV).1.error.isSome = true ∧
        (checkUrlReputation o urlV).1.data = none)) ∧
    (((checkIpReputation o ipV).1.success = true →
        (checkIpReputation o ipV).1.data.isSome = true ∧
        (checkIpReputation o ipV).1.error = none) ∧
      ((checkIpReputation o ipV).1.success = false →
        (checkIpReputation o ipV).1.error.isSome = true ∧
        (checkIpReputation o ipV).1.data = none)) ∧
    ((extractUrls o emailBody emailHtml).data.isSome = true ∧
      (extractUrls o emailBody emailHtml).error = none) ∧
    ((checkAuthentication headers).data.isSome = true ∧
      (checkAuthentication headers).error = none) := by
  refine ⟨⟨?ha, ?hb⟩, ⟨?hc, ?hd⟩, ?he, ?hf⟩
  · intro h
    rcases checkUrlReputation_shape o urlV with ⟨_, h2, h3⟩ | ⟨h1, _, _⟩
    · exact ⟨h2, h3⟩
    · rw [h] at h1; cases h1
  · intro h
    rcases checkUrlReputation_shape o urlV with ⟨h1, _, _⟩ | ⟨_, h2, h3⟩
    · rw [h] at h1; cases h1
    · exact ⟨h2, h3⟩
  · intro h
    rcases checkIpReputation_shape o ipV with ⟨_, h2, h3⟩ | ⟨h1, _, _⟩
    · exact ⟨h2, h3⟩
    · rw [h] at h1; cases h1
  · intro h
    rcases checkIpReputation_shape o ipV with ⟨h1, _, _⟩ | ⟨_, h2, h3⟩
    · rw [h] at h1; cases h1
    · exact ⟨h2, h3⟩
  · unfold extractUrls
    split <;> simp [extractUrlsFailure]
  · unfold checkAuthentication
    split <;> simp [checkAuthenticationFailure]

/-- C9 witness: shape facts at concrete inputs via the theorem. -/
theorem c9_witness :
    (checkUrlReputation trivialOracles none).1.error.isSome = true ∧
    (extractUrls trivialOracles (.str "hello") none).error = none := by
  refine ⟨((c9_outcome_shapes trivialOracles none none (.str "hello") none
    (.obj [])).1.2 rfl).1, ?_⟩
  exact (c9_outcome_shapes trivialOracles none none (.str "hello") none (.obj [])).2.2.1.2

/-! ## Loop lemmas: conservative exits -/

/-- Verdict field of the placeholder. -/
theorem bca_verdict (e : EmailInput) (tcs : List ToolCall) (md : AnalysisMetadata) :
    payloadLookup (buildConservativeAnalysis e tcs md) "verdict" = some (.str "suspicious") := rfl

/-- Confidence field of the placeholder. -/
theorem bca_confidence (e : EmailInput) (tcs : List ToolCall) (md : AnalysisMetadata) :
    payloadLookup (buildConservativeAnalysis e tcs md) "confidence" = some (.num 50) := rfl

/-- Reasoning field of the placeholder. -/
theorem bca_reasoning (e : EmailInput) (tcs : List ToolCall) (md : AnalysisMetadata) :
    payloadLookup (buildConservativeAnalysis e tcs md) "reasoning" =
      some (.arr (conservativeReasoning tcs.length)) := rfl

/-- The placeholder logs exactly the accumulated tool calls. -/
theorem toolCallsOf_bca (e : EmailInput) (tcs : List ToolCall) (md : AnalysisMetadata) :
    toolCallsOf (buildConservativeAnalysis e tcs md) = tcs := by
  unfold toolCallsOf buildConservativeAnalysis
  by_cases h : tcs.length > 0
  · simp [h]
  · simp only [gt_iff_lt, Nat.pos_iff_ne_zero, ne_eq, not_not] at h
    have : tcs = [] := List.length_eq_zero.mp h
    simp [this]

/-- An assembled record logs exactly the accumulated tool calls. -/
theorem toolCallsOf_assembleFromJson (j : Json) (tcs : List ToolCall) (md : AnalysisMetadata) :
    toolCallsOf (assembleFromJson j tcs md) = tcs := by
  unfold toolCallsOf assembleFromJson
  by_cases h : tcs.length > 0
  · simp [h]
  · simp only [gt_iff_lt, Nat.pos_iff_ne_zero, ne_eq, not_not] at h
    have : tcs = [] := List.length_eq_zero.mp h
    simp [this]

/-- A finished turn either fails to parse (yielding the conservative
placeholder over the accumulated log) or assembles the record verbatim from
the JSON parsed out of the fence-stripped, trimmed model text. -/
theorem finishTurn_shape (email : EmailInput) (r : ModelResponse)
    (tc : List ToolCall) (tt now : Nat) :
    (∃ md, (finishTurn email r tc tt now).1 = buildConservativeAnalysis email tc md ∧
      (finishTurn email r tc tt now).2 ≠ ExitKind.finished) ∨
    (∃ s j, jsonParse (stripFences (trimStr s)) = some j ∧
      (finishTurn email r tc tt now).1 =
        assembleFromJson j tc ⟨r.model, now, r.inputTokens, r.outputTokens, tt⟩ ∧
      (finishTurn email r tc tt now).2 = ExitKind.finished) := by
  unfold finishTurn
  cases hp : parseFinalResponse r.content tc
      ⟨r.model, now, r.inputTokens, r.outputTokens, tt⟩ with
  | error m => left; exact ⟨_, rfl, by simp⟩
  | ok a =>
    right
    unfold parseFinalResponse at hp
    cases hs : firstTextBlock r.content with
    | none => simp only [hs] at hp; cases hp
    | some str =>
      simp only [hs] at hp
      cases hj : jsonParse (stripFences (trimStr str)) with
      | none => simp only [hj] at hp; cases hp
      | some j =>
        simp only [hj, Except.ok.injEq] at hp
        exact ⟨str, j, hj, by rw [← hp], rfl⟩

/-- Every loop outcome is either the conservative placeholder over some
accumulated log, or (exactly when the exit is `finished`) the verbatim spread
of the JSON parsed from an accepted model text. -/
theorem runLoop_shape (o : Oracles) (email : EmailInput) :
    ∀ (events : List ModelEvent) (durs : List Nat) (tc : List ToolCall) (tt now iter : Nat),
      (∃ tcs md, (runLoop o email events durs tc tt now iter).1 =
        buildConservativeAnalysis email tcs md) ∨
      (∃ s j tcs md, jsonParse (stripFences (trimStr s)) = some j ∧
        (runLoop o email events durs tc tt now iter).1 = assembleFromJson j tcs md ∧
        (runLoop o email events durs tc tt now iter).2 = ExitKind.finished) := by
  intro events
  induction events with
  | nil =>
    intro durs tc tt now iter
    unfold runLoop
    split
    · split
      · left; exact ⟨tc, _, rfl⟩
      · left; exact ⟨tc, _, rfl⟩
    · left; exact ⟨tc, _, rfl⟩
  | cons e rest ih =>
    intro durs tc tt now iter
    unfold runLoop
    split
    · split
      · left; exact ⟨tc, _, rfl⟩
      · cases e with
        | failure m dur => left; exact ⟨tc, _, rfl⟩
        | response r dur =>
          dsimp only
          cases hsr : r.stopReason with
          | endTurn =>
            simp only [hsr]
            rcases finishTurn_shape email r tc tt (now + dur) with
              ⟨md, h1, _⟩ | ⟨str, j, hj, h1, h2⟩
            · left; exact ⟨tc, md, h1⟩
            · right; exact ⟨str, j, tc, _, hj, h1, h2⟩
          | maxTokens =>
            simp only [hsr]
            rcases finishTurn_shape email r tc tt (now + dur) with
              ⟨md, h1, _⟩ | ⟨str, j, hj, h1, h2⟩
            · left; exact ⟨tc, md, h1⟩
            · right; exact ⟨str, j, tc, _, hj, h1, h2⟩
          | toolUseStop =>
            simp only [hsr]
            by_cases hb : (toolBlocksOf r.content).isEmpty = true
            · simp only [hb, if_true]
              rcases finishTurn_shape email r tc tt (now + dur) with
                ⟨md, h1, _⟩ | ⟨str, j, hj, h1, h2⟩
              · left; exact ⟨tc, md, h1⟩
              · right; exact ⟨str, j, tc, _, hj, h1, h2⟩
            · simp only [Bool.not_eq_true] at hb
              simp only [hb, Bool.false_eq_true, if_false]
              exact ih _ _ _ _ _
          | other str =>
            simp only [hsr]
            left; exact ⟨tc, _, rfl⟩
    · left; exact ⟨tc, _, rfl⟩

/-! ## Claim C3: conservative placeholder on truncation -/

/-- C3: if the loop exits because the iteration ceiling was reached, the
tool-phase clock expired, or a model call failed/timed out (the per-call race
rejecting), the returned record is the conservative placeholder: verdict
`suspicious`, confidence exactly 50, and a non-empty reasoning list that
names how many tools executed before truncation. -/
theorem c3_conservative_on_truncation (o : Oracles) (email : EmailInput)
    (events : List ModelEvent) (durs : List Nat) (tc : List ToolCall) (tt now iter : Nat)
    (h : (runLoop o email events durs tc tt now iter).2 = ExitKind.iterCeiling ∨
         (runLoop o email events durs tc tt now iter).2 = ExitKind.phaseClock ∨
         ∃ m, (runLoop o email events durs tc tt now iter).2 = ExitKind.callFailure m) :
    payloadLookup (runLoop o email events durs tc tt now iter).1 "verdict" =
      some (.str "suspicious") ∧
    payloadLookup (runLoop o email events durs tc tt now iter).1 "confidence" =
      some (.num 50) ∧
    payloadLookup (runLoop o email events durs tc tt now iter).1 "reasoning" =
      some (.arr (conservativeReasoning
        (toolCallsOf (runLoop o email events durs tc tt now iter).1).length)) ∧
    conservativeReasoning
      (toolCallsOf (runLoop o email events durs tc tt now iter).1).length ≠ [] ∧
    Json.str ("Executed " ++
        toString (toolCallsOf (runLoop o email events durs tc tt now iter).1).length ++
        (if (toolCallsOf (runLoop o email events durs tc tt now iter).1).length == 1
          then " tool" else " tools") ++ " before timeout") ∈
      conservativeReasoning
        (toolCallsOf (runLoop o email events durs tc tt now iter).1).length := by
  rcases runLoop_shape o email events durs tc tt now iter with
    ⟨tcs, md, hc⟩ | ⟨s, j, tcs, md, _, _, hf⟩
  · rw [hc, toolCallsOf_bca]
    refine ⟨bca_verdict email tcs md, bca_confidence email tcs md,
      bca_reasoning email tcs md, by simp [conservativeReasoning], ?_⟩
    simp [conservativeReasoning]
  · exfalso
    rcases h with h | h | ⟨m, h⟩ <;> rw [hf] at h <;> simp at h

/-- C3 witness: three consecutive tool-requesting turns exhaust the iteration
ceiling; the result is the conservative record. -/
theorem c3_witness :
    payloadLookup (runLoop trivialOracles sampleEmail
      [toolTurn 1, toolTurn 1, toolTurn 1] [] [] 0 0 0).1 "verdict" =
      some (.str "suspicious") ∧
    payloadLookup (runLoop trivialOracles sampleEmail
      [toolTurn 1, toolTurn 1, toolTurn 1] [] [] 0 0 0).1 "confidence" =
      some (.num 50) ∧
    payloadLookup (runLoop trivialOracles sampleEmail
      [toolTurn 1, toolTurn 1, toolTurn 1] [] [] 0 0 0).1 "reasoning" =
      some (.arr (conservativeReasoning 3)) := by
  have h := c3_conservative_on_truncation trivialOracles sampleEmail
    [toolTurn 1, toolTurn 1, toolTurn 1] [] [] 0 0 0 (Or.inl rfl)
  exact ⟨h.1, h.2.1, by rw [h.2.2.1]; rfl⟩

/-! ## Claim C1: record shape of the orchestration loop -/

/-- A successful v1.0 analysis spreads parsed JSON verbatim. -/
theorem analyzeEmail_ok_shape (email : EmailInput) (msg : Except String ModelResponse)
    (a : EmailAnalysis) (h : analyzeEmail email msg = .ok a) :
    ∃ t j md, jsonParse t = some j ∧ a = assembleSimple j md := by
  cases hf : formatEmailForAnalysis email with
  | error e => simp [analyzeEmail, hf, Except.bind, bind] at h
  | ok f =>
    cases msg with
    | error e => simp [analyzeEmail, hf, Except.bind, bind] at h
    | ok m =>
      cases hc : m.content.head? with
      | none => simp [analyzeEmail, hf, hc, Except.bind, bind] at h
      | some blk =>
        cases blk with
        | toolUse b => simp [analyzeEmail, hf, hc, Except.bind, bind] at h
        | text t =>
          cases hj : jsonParse t with
          | none => simp [analyzeEmail, hf, hc, hj, Except.bind, bind] at h
          | some j =>
            simp [analyzeEmail, hf, hc, hj, Except.bind, bind] at h
            exact ⟨t, j, ⟨m.model, 0, m.inputTokens, m.outputTokens, 0⟩, hj, h.symm⟩

/-- C1 counterexample.  A final model turn whose JSON reports confidence 150
is accepted unchanged: the returned record carries confidence 150, outside
the claimed range [0, 100]. -/
theorem c1_counterexample :
    (analyzeWithTools trivialOracles sampleEmail ce1Events [] (.error "unavailable")).map
      (fun a => payloadLookup a "confidence") = .ok (some (.num 150)) ∧
    ¬((150 : Int) ≤ 100) := by
  exact ⟨rfl, by decide⟩

/-- C1 (amended): the invocation returns exactly one record, which is either
the conservative placeholder (verdict `suspicious`, confidence 50, inside the
claimed ranges) or the verbatim spread of the JSON parsed from an accepted
model (or fallback) final text — with no re-validation, so the verdict and
confidence lie in the claimed sets only when the model output does. -/
theorem c1_record_provenance (o : Oracles) (email : EmailInput)
    (events : List ModelEvent) (durs : List Nat) (msg : Except String ModelResponse)
    (a : EmailAnalysis) (h : analyzeWithTools o email events durs msg = .ok a) :
    (∃ tcs md, a = buildConservativeAnalysis email tcs md) ∨
    (∃ s j tcs md, jsonParse (stripFences (trimStr s)) = some j ∧
      a = assembleFromJson j tcs md) ∨
    (∃ t j md, jsonParse t = some j ∧ a = assembleSimple j md) := by
  unfold analyzeWithTools at h
  cases hf : formatEmailForAnalysis email with
  | ok f =>
    simp only [hf] at h
    have ha : (runLoop o email events durs [] 0 0 0).1 = a := by
      injection h
    rcases runLoop_shape o email events durs [] 0 0 0 with
      ⟨tcs, md, hc⟩ | ⟨s, j, tcs, md, hj, h1, _⟩
    · left; exact ⟨tcs, md, by rw [← ha, hc]⟩
    · right; left; exact ⟨s, j, tcs, md, hj, by rw [← ha, h1]⟩
  | error e =>
    simp only [hf] at h
    unfold degradationPolicy at h
    split at h
    · left
      injection h with h2
      exact ⟨[], _, h2.symm⟩
    · right; right
      exact analyzeEmail_ok_shape email msg a h

/-- C1 witness: the provenance disjunction at a concrete accepting run. -/
theorem c1_witness :
    ∃ a, analyzeWithTools trivialOracles sampleEmail ce1Events [] (.error "unavailable") =
        .ok a ∧
      ((∃ tcs md, a = buildConservativeAnalysis sampleEmail tcs md) ∨
       (∃ s j tcs md, jsonParse (stripFences (trimStr s)) = some j ∧
         a = assembleFromJson j tcs md) ∨
       (∃ t j md, jsonParse t = some j ∧ a = assembleSimple j md)) := by
  refine ⟨(runLoop trivialOracles sampleEmail ce1Events [] [] 0 0 0).1, rfl, ?_⟩
  exact c1_record_provenance trivialOracles sampleEmail ce1Events [] (.error "unavailable")
    _ rfl

/-! ## Claim C2: degradation policy boundary -/

/-- C2 counterexample.  Invoked with remaining budget (elapsed 0), the
degradation policy delegates to `analyzeEmail`, whose failure is re-thrown:
the policy itself throws past its own boundary instead of always yielding a
valid record. -/
theorem c2_counterexample :
    degradationPolicy sampleEmail 0 [] 0 (.error "Connection error") =
      .error "Email analysis failed: Connection error" := by
  rfl

/-- C2 (amended): every failure inside the agentic tool loop (model-call
error or timeout, unparseable final output) is absorbed by the inner handler,
so an invocation whose preparation succeeds always returns a record; the
degradation policy, however, throws past its boundary exactly when its
fallback branch is taken (enough budget remains) and the fallback
`analyzeEmail` itself fails. -/
theorem c2_policy_boundary (o : Oracles) (email : EmailInput) (events : List ModelEvent)
    (durs : List Nat) (msg : Except String ModelResponse) (elapsed : Nat)
    (tc : List ToolCall) (tt : Nat) (e : String) :
    (email.receivedAt.valid = true →
      ∃ a, analyzeWithTools o email events durs msg = .ok a) ∧
    (degradationPolicy email elapsed tc tt msg = .error e ↔
      (elapsed + MIN_FALLBACK_TIME_MS ≤ MAX_ANALYSIS_TIME_MS ∧
       analyzeEmail email msg = .error e)) := by
  constructor
  · intro hv
    unfold analyzeWithTools formatEmailForAnalysis
    simp only [hv, if_true]
    exact ⟨_, rfl⟩
  · unfold degradationPolicy
    split
    · constructor
      · intro h; cases h
      · rintro ⟨hle, _⟩
        omega
    · constructor
      · intro h
        refine ⟨by omega, h⟩
      · rintro ⟨_, h⟩
        exact h

/-- C2 witness: a run whose model calls all fail still returns a record, and
the policy rejects exactly when the fallback fails with budget remaining. -/
theorem c2_witness :
    (∃ a, analyzeWithTools trivialOracles sampleEmail [.failure "boom" 0] []
      (.error "boom") = .ok a) ∧
    degradationPolicy sampleEmail 0 [] 0 (.error "boom") =
      .error "Email analysis failed: boom" := by
  constructor
  · exact (c2_policy_boundary trivialOracles sampleEmail [.failure "boom" 0] []
      (.error "boom") 0 [] 0 "").1 rfl
  · exact (c2_policy_boundary trivialOracles sampleEmail [.failure "boom" 0] []
      (.error "boom") 0 [] 0 "Email analysis failed: boom").2.mpr ⟨by decide, rfl⟩

/-! ## Loop lemmas: tool-call log invariants -/

/-- Per-turn execution invariants: the appended log entries are ordered by
start timestamp, timestamped within the clock window of the turn, no more numerous
than the requested blocks, each recording exactly its (successful)
result of its own successful execution; the clock never goes backwards. -/
theorem ptb_invariants (o : Oracles) (email : EmailInput) :
    ∀ (blocks : List ToolUseBlock) (durs : List Nat) (now : Nat),
      List.Chain' startLE (processToolUseBlocks o email blocks durs now).1 ∧
      (∀ c ∈ (processToolUseBlocks o email blocks durs now).1,
        now ≤ c.startTime ∧ c.startTime ≤ (processToolUseBlocks o email blocks durs now).2.2.1) ∧
      now ≤ (processToolUseBlocks o email blocks durs now).2.2.1 ∧
      (processToolUseBlocks o email blocks durs now).1.length ≤ blocks.length ∧
      (∀ c ∈ (processToolUseBlocks o email blocks durs now).1,
        executeTool o c.name c.input email = .ok c.result) := by
  intro blocks
  induction blocks with
  | nil =>
    intro durs now
    refine ⟨List.chain'_nil, ?_, le_refl now, by simp [processToolUseBlocks], ?_⟩ <;>
      intro c hc <;> simp [processToolUseBlocks] at hc
  | cons b bs ih =>
    intro durs now
    unfold processToolUseBlocks
    cases hx : executeTool o b.name b.input email with
    | error m =>
      obtain ⟨i1, i2, i3, i4, i5⟩ := ih durs now
      exact ⟨i1, i2, i3, Nat.le_succ_of_le i4, i5⟩
    | ok result =>
      obtain ⟨i1, i2, i3, i4, i5⟩ := ih durs.tail (now + durs.headD 0)
      dsimp only
      refine ⟨?g1, ?g2, ?g3, ?g4, ?g5⟩
      · rw [List.chain'_cons']
        refine ⟨?_, i1⟩
        intro y hy
        have hmem := List.mem_of_mem_head? hy
        have := (i2 y hmem).1
        unfold startLE
        dsimp only
        omega
      · intro c hc
        rcases List.mem_cons.mp hc with hc | hc
        · subst hc
          dsimp only
          constructor
          · exact le_refl now
          · omega
        · have := i2 c hc
          omega
      · omega
      · simpa using Nat.succ_le_succ i4
      · intro c hc
        rcases List.mem_cons.mp hc with hc | hc
        · subst hc
          exact hx
        · exact i5 c hc

/-- Per-turn log growth counts exactly the successful executions: a throwing
execution contributes nothing to the log. -/
theorem ptb_length_filter (o : Oracles) (email : EmailInput) :
    ∀ (blocks : List ToolUseBlock) (durs : List Nat) (now : Nat),
      (processToolUseBlocks o email blocks durs now).1.length =
        (blocks.filter (fun b => exceptOk (executeTool o b.name b.input email))).length := by
  intro blocks
  induction blocks with
  | nil => intro durs now; rfl
  | cons b bs ih =>
    intro durs now
    unfold processToolUseBlocks
    cases hx : executeTool o b.name b.input email with
    | error m =>
      have hf : exceptOk (executeTool o b.name b.input email) = false := by
        rw [hx]; rfl
      simp only [List.filter_cons, hf, Bool.false_eq_true, if_false]
      exact ih durs now
    | ok result =>
      have hf : exceptOk (executeTool o b.name b.input email) = true := by
        rw [hx]; rfl
      simp only [List.filter_cons, hf, if_true, List.length_cons]
      exact congrArg Nat.succ (ih durs.tail (now + durs.headD 0))

/-- Loop-level log invariant: with every scripted turn requesting at most `B`
tool blocks, the final log is ordered by start timestamp and its length is
bounded by the accumulated log plus `B` per remaining iteration. -/
theorem runLoop_log (o : Oracles) (email : EmailInput) :
    ∀ (events : List ModelEvent) (durs : List Nat) (tc : List ToolCall)
      (tt now iter B : Nat),
      (∀ e ∈ events, toolBlockCount e ≤ B) →
      List.Chain' startLE tc →
      (∀ c ∈ tc, c.startTime ≤ now) →
      List.Chain' startLE (toolCallsOf (runLoop o email events durs tc tt now iter).1) ∧
      (toolCallsOf (runLoop o email events durs tc tt now iter).1).length ≤
        tc.length + (MAX_TOOL_CALLS - iter) * B := by
  intro events
  induction events with
  | nil =>
    intro durs tc tt now iter B hB hch hnow
    unfold runLoop
    split
    · split
      · rw [toolCallsOf_bca]; exact ⟨hch, Nat.le_add_right _ _⟩
      · rw [toolCallsOf_bca]; exact ⟨hch, Nat.le_add_right _ _⟩
    · rw [toolCallsOf_bca]; exact ⟨hch, Nat.le_add_right _ _⟩
  | cons e rest ih =>
    intro durs tc tt now iter B hB hch hnow
    unfold runLoop
    split
    case isFalse => rw [toolCallsOf_bca]; exact ⟨hch, Nat.le_add_right _ _⟩
    case isTrue hlt =>
      split
      · rw [toolCallsOf_bca]; exact ⟨hch, Nat.le_add_right _ _⟩
      · cases e with
        | failure m dur => rw [toolCallsOf_bca]; exact ⟨hch, Nat.le_add_right _ _⟩
        | response r dur =>
          dsimp only
          cases hsr : r.stopReason with
          | endTurn =>
            simp only [hsr]
            rcases finishTurn_shape email r tc tt (now + dur) with
              ⟨md, h1, _⟩ | ⟨s, j, _, h1, _⟩
            · rw [h1, toolCallsOf_bca]; exact ⟨hch, Nat.le_add_right _ _⟩
            · rw [h1, toolCallsOf_assembleFromJson]; exact ⟨hch, Nat.le_add_right _ _⟩
          | maxTokens =>
            simp only [hsr]
            rcases finishTurn_shape email r tc tt (now + dur) with
              ⟨md, h1, _⟩ | ⟨s, j, _, h1, _⟩
            · rw [h1, toolCallsOf_bca]; exact ⟨hch, Nat.le_add_right _ _⟩
            · rw [h1, toolCallsOf_assembleFromJson]; exact ⟨hch, Nat.le_add_right _ _⟩
          | toolUseStop =>
            simp only [hsr]
            by_cases hb : (toolBlocksOf r.content).isEmpty = true
            · simp only [hb, if_true]
              rcases finishTurn_shape email r tc tt (now + dur) with
                ⟨md, h1, _⟩ | ⟨s, j, _, h1, _⟩
              · rw [h1, toolCallsOf_bca]; exact ⟨hch, Nat.le_add_right _ _⟩
              · rw [h1, toolCallsOf_assembleFromJson]; exact ⟨hch, Nat.le_add_right _ _⟩
            · simp only [Bool.not_eq_true] at hb
              simp only [hb, Bool.false_eq_true, if_false]
              obtain ⟨p1, p2, p3, p4, _⟩ :=
                ptb_invariants o email (toolBlocksOf r.content) durs (now + dur)
              have hch2 : List.Chain' startLE
                  (tc ++ (processToolUseBlocks o email (toolBlocksOf r.content) durs (now + dur)).1) := by
                rw [List.chain'_append]
                refine ⟨hch, p1, ?_⟩
                intro x hx y hy
                have hx2 := hnow x (List.mem_of_mem_getLast? hx)
                have hy2 := (p2 y (List.mem_of_mem_head? hy)).1
                unfold startLE
                omega
              have hnow2 : ∀ c ∈ tc ++
                  (processToolUseBlocks o email (toolBlocksOf r.content) durs (now + dur)).1,
                  c.startTime ≤
                    (processToolUseBlocks o email (toolBlocksOf r.content) durs (now + dur)).2.2.1 := by
                intro c hc
                rcases List.mem_append.mp hc with hc | hc
                · have := hnow c hc
                  omega
                · exact (p2 c hc).2
              have hB2 : ∀ e' ∈ rest, toolBlockCount e' ≤ B := by
                intro e' he'
                exact hB e' (List.mem_cons_of_mem _ he')
              have hr := ih (processToolUseBlocks o email (toolBlocksOf r.content) durs (now + dur)).2.1
                (tc ++ (processToolUseBlocks o email (toolBlocksOf r.content) durs (now + dur)).1)
                (tt + (processToolUseBlocks o email (toolBlocksOf r.content) durs (now + dur)).2.2.2)
                (processToolUseBlocks o email (toolBlocksOf r.content) durs (now + dur)).2.2.1
                (iter + 1) B hB2 hch2 hnow2
              refine ⟨hr.1, ?_⟩
              have h2 := hr.2
              rw [List.length_append] at h2
              have hlenB : (processToolUseBlocks o email
                  (toolBlocksOf r.content) durs (now + dur)).1.length ≤ B := by
                have hcount := hB (ModelEvent.response r dur) (List.mem_cons_self _ rest)
                have : toolBlockCount (ModelEvent.response r dur) =
                    (toolBlocksOf r.content).length := rfl
                omega
              have hk : MAX_TOOL_CALLS - iter = (MAX_TOOL_CALLS - (iter + 1)) + 1 := by
                unfold MAX_TOOL_CALLS at hlt ⊢
                omega
              rw [hk, Nat.succ_mul]
              generalize (MAX_TOOL_CALLS - (iter + 1)) * B = Z at h2 ⊢
              omega
          | other str =>
            simp only [hsr]
            rw [toolCallsOf_bca]
            exact ⟨hch, Nat.le_add_right _ _⟩

/-- Loop-level log integrity: every logged call records the result of its own
(successful) execution. -/
theorem runLoop_results_executed (o : Oracles) (email : EmailInput) :
    ∀ (events : List ModelEvent) (durs : List Nat) (tc : List ToolCall) (tt now iter : Nat),
      (∀ c ∈ tc, executeTool o c.name c.input email = .ok c.result) →
      ∀ c ∈ toolCallsOf (runLoop o email events durs tc tt now iter).1,
        executeTool o c.name c.input email = .ok c.result := by
  intro events
  induction events with
  | nil =>
    intro durs tc tt now iter hok
    unfold runLoop
    split
    · split
      · rw [toolCallsOf_bca]; exact hok
      · rw [toolCallsOf_bca]; exact hok
    · rw [toolCallsOf_bca]; exact hok
  | cons e rest ih =>
    intro durs tc tt now iter hok
    unfold runLoop
    split
    case isFalse => rw [toolCallsOf_bca]; exact hok
    case isTrue hlt =>
      split
      · rw [toolCallsOf_bca]; exact hok
      · cases e with
        | failure m dur => rw [toolCallsOf_bca]; exact hok
        | response r dur =>
          dsimp only
          cases hsr : r.stopReason with
          | endTurn =>
            simp only [hsr]
            rcases finishTurn_shape email r tc tt (now + dur) with
              ⟨md, h1, _⟩ | ⟨s, j, _, h1, _⟩
            · rw [h1, toolCallsOf_bca]; exact hok
            · rw [h1, toolCallsOf_assembleFromJson]; exact hok
          | maxTokens =>
            simp only [hsr]
            rcases finishTurn_shape email r tc tt (now + dur) with
              ⟨md, h1, _⟩ | ⟨s, j, _, h1, _⟩
            · rw [h1, toolCallsOf_bca]; exact hok
            · rw [h1, toolCallsOf_assembleFromJson]; exact hok
          | toolUseStop =>
            simp only [hsr]
            by_cases hb : (toolBlocksOf r.content).isEmpty = true
            · simp only [hb, if_true]
              rcases finishTurn_shape email r tc tt (now + dur) with
                ⟨md, h1, _⟩ | ⟨s, j, _, h1, _⟩
              · rw [h1, toolCallsOf_bca]; exact hok
              · rw [h1, toolCallsOf_assembleFromJson]; exact hok
            · simp only [Bool.not_eq_true] at hb
              simp only [hb, Bool.false_eq_true, if_false]
              obtain ⟨_, _, _, _, p5⟩ :=
                ptb_invariants o email (toolBlocksOf r.content) durs (now + dur)
              refine ih (processToolUseBlocks o email (toolBlocksOf r.content) durs (now + dur)).2.1
                (tc ++ (processToolUseBlocks o email (toolBlocksOf r.content) durs (now + dur)).1)
                (tt + (processToolUseBlocks o email (toolBlocksOf r.content) durs (now + dur)).2.2.2)
                (processToolUseBlocks o email (toolBlocksOf r.content) durs (now + dur)).2.2.1
                (iter + 1) ?_
              intro c hc
              rcases List.mem_append.mp hc with hc | hc
              · exact hok c hc
              · exact p5 c hc
          | other str =>
            simp only [hsr]
            rw [toolCallsOf_bca]
            exact hok

/-! ## Claim C4: log ordering and length bound -/

/-- The v1.0 record attaches no typed tool-call log. -/
theorem toolCallsOf_assembleSimple (j : Json) (md : AnalysisMetadata) :
    toolCallsOf (assembleSimple j md) = [] := rfl

/-- C4 counterexample.  With `MAX_TOOL_CALLS = 3`, a single model turn
requesting four tool calls produces a log of length 4: the constant bounds
iterations, not logged calls. -/
theorem c4_counterexample :
    (analyzeWithTools trivialOracles sampleEmail [toolTurn 4] [] (.error "u")).map
      (fun a => (toolCallsOf a).length) = .ok 4 ∧
    MAX_TOOL_CALLS < 4 := by
  exact ⟨rfl, by decide⟩

/-- C4 (amended): the log is totally ordered by start timestamp
(nondecreasing), and its length is bounded by `MAX_TOOL_CALLS` times the
largest number of tool blocks any single turn requests — hence by
`MAX_TOOL_CALLS` itself only when every turn requests at most one tool. -/
theorem c4_log_ordered_bounded (o : Oracles) (email : EmailInput)
    (events : List ModelEvent) (durs : List Nat) (msg : Except String ModelResponse)
    (B : Nat) (a : EmailAnalysis)
    (hB : ∀ e ∈ events, toolBlockCount e ≤ B)
    (h : analyzeWithTools o email events durs msg = .ok a) :
    List.Chain' startLE (toolCallsOf a) ∧
    (toolCallsOf a).length ≤ MAX_TOOL_CALLS * B := by
  unfold analyzeWithTools at h
  cases hf : formatEmailForAnalysis email with
  | ok f =>
    simp only [hf] at h
    have ha : (runLoop o email events durs [] 0 0 0).1 = a := by injection h
    have hr := runLoop_log o email events durs [] 0 0 0 B hB List.chain'_nil
      (by intro c hc; simp at hc)
    rw [ha] at hr
    simpa using hr
  | error e =>
    simp only [hf] at h
    unfold degradationPolicy at h
    split at h
    · injection h with h2
      rw [← h2, toolCallsOf_bca]
      exact ⟨List.chain'_nil, by simp⟩
    · obtain ⟨t, j, md, _, ha⟩ := analyzeEmail_ok_shape email msg a h
      rw [ha, toolCallsOf_assembleSimple]
      exact ⟨List.chain'_nil, by simp⟩

/-- C4 witness: three single-tool turns give an ordered log of length at
most 3. -/
theorem c4_witness :
    List.Chain' startLE (toolCallsOf ((runLoop trivialOracles sampleEmail
      [toolTurn 1, toolTurn 1, toolTurn 1] [] [] 0 0 0).1)) ∧
    (toolCallsOf ((runLoop trivialOracles sampleEmail
      [toolTurn 1, toolTurn 1, toolTurn 1] [] [] 0 0 0).1)).length ≤ MAX_TOOL_CALLS * 1 := by
  have h := c4_log_ordered_bounded trivialOracles sampleEmail
    [toolTurn 1, toolTurn 1, toolTurn 1] [] (.error "u") 1 _
    (by intro e he
        rcases he with _ | ⟨_, (_ | ⟨_, (_ | ⟨_, h⟩)⟩)⟩ <;> first | decide | cases h)
    rfl
  exact h

/-! ## Claim C10: throwing executions never reach the log -/

/-- C10: every tool call in the log of a returned record has its result
populated from a completed (non-throwing) execution of that very tool on
that very input; and the per-turn log growth counts exactly the successful
executions, so a throwing execution leaves the log unchanged. -/
theorem c10_log_integrity (o : Oracles) (email : EmailInput)
    (events : List ModelEvent) (durs : List Nat) (msg : Except String ModelResponse)
    (a : EmailAnalysis) (h : analyzeWithTools o email events durs msg = .ok a) :
    (∀ c ∈ toolCallsOf a, executeTool o c.name c.input email = .ok c.result) ∧
    (∀ (blocks : List ToolUseBlock) (durs2 : List Nat) (now : Nat),
      (processToolUseBlocks o email blocks durs2 now).1.length =
        (blocks.filter (fun b => exceptOk (executeTool o b.name b.input email))).length) := by
  refine ⟨?_, ptb_length_filter o email⟩
  unfold analyzeWithTools at h
  cases hf : formatEmailForAnalysis email with
  | ok f =>
    simp only [hf] at h
    have ha : (runLoop o email events durs [] 0 0 0).1 = a := by injection h
    have hr := runLoop_results_executed o email events durs [] 0 0 0
      (by intro c hc; simp at hc)
    rw [ha] at hr
    exact hr
  | error e =>
    simp only [hf] at h
    unfold degradationPolicy at h
    split at h
    · injection h with h2
      rw [← h2, toolCallsOf_bca]
      intro c hc
      simp at hc
    · obtain ⟨t, j, md, _, ha⟩ := analyzeEmail_ok_shape email msg a h
      rw [ha, toolCallsOf_assembleSimple]
      intro c hc
      simp at hc

/-- C10 witness: the single logged call of a one-tool run records its own
execution result. -/
theorem c10_witness :
    executeTool trivialOracles "extract_urls" [("email_body", Json.str "hello")]
      sampleEmail = .ok
        { success := true,
          data := some (.obj [("urls", .arr []), ("total_found", .num 0),
                              ("suspicious_count", .num 0)]),
          error := none, cached := none, source := some "local" } := by
  have h := (c10_log_integrity trivialOracles sampleEmail [toolTurn 1] [] (.error "u")
    (runLoop trivialOracles sampleEmail [toolTurn 1] [] [] 0 0 0).1 rfl).1
  have hm : (⟨"0", "extract_urls", [("email_body", Json.str "hello")],
      { success := true,
        data := some (.obj [("urls", .arr []), ("total_found", .num 0),
                            ("suspicious_count", .num 0)]),
        error := none, cached := none, source := some "local" }, 0, 0, 0⟩ : ToolCall) ∈
      toolCallsOf (runLoop trivialOracles sampleEmail [toolTurn 1] [] [] 0 0 0).1 := by
    exact List.mem_singleton_self _
  exact h _ hm
